import Mathlib

/-!
# Verification of the-last-back game backend

Shallow embedding of the matchmaking / game-round / TON join-intent
reconciliation core of the repository.  JavaScript strings are modelled as
`List Char` (`Str`), JS `Map`s as association lists in insertion order,
database tables as lists of rows, and monetary `number`s as exact rationals.
Fallible code (functions that `throw`) returns `Except Str` or `Option`.
-/

namespace LastBack

/-- JS strings are modelled as lists of UTF-16-ish characters. -/
abbrev Str := List Char

/-- `String.trim` / JS `String.prototype.trim`: drop whitespace on both ends. -/
def trimChars (s : Str) : Str :=
  ((s.dropWhile Char.isWhitespace).reverse.dropWhile Char.isWhitespace).reverse

/-- JS `str.split(':')` specialised to one-character separators: splits a
character list at every occurrence of `sep`, keeping empty segments. -/
def splitOnChar (sep : Char) : Str → List Str
  | [] => [[]]
  | c :: rest =>
    match splitOnChar sep rest with
    | [] => [[]]
    | seg :: segs => if c = sep then [] :: seg :: segs else (c :: seg) :: segs

/-- Regex class `[0-9a-fA-F]`. -/
def isHexChar (c : Char) : Bool :=
  (('0' ≤ c && c ≤ '9') || ('a' ≤ c && c ≤ 'f') || ('A' ≤ c && c ≤ 'F'))

/-- Regex `^[0-9a-fA-F]{64}$` from `extractRoomIdAndNonceFromComment`. -/
def isHex64 (s : Str) : Bool :=
  s.length = 64 && s.all isHexChar

/-- Decimal digit test (used for strings produced by `roomIdToString`). -/
def isDecChar (c : Char) : Bool := '0' ≤ c && c ≤ '9'

/-- JS `||` on strings: the left operand unless it is falsy (empty). -/
def jsOrStr (a b : Str) : Str := if a = [] then b else a

/-- JS truthiness of an optional string: `undefined`/`null` and `""` are falsy. -/
def truthyStr : Option Str → Option Str
  | none => none
  | some [] => none
  | some s => some s

/-! ## utils/roomId.ts -/

/-- `hash16` from `src/utils/roomId.ts`: FNV-1a 32-bit over the char codes,
truncated to the low 16 bits. -/
def hash16 (s : Str) : Nat :=
  (s.foldl (fun h c => ((h ^^^ c.toNat) * 0x01000193) % 4294967296) 0x811c9dc5) % 65536

/-- Decimal rendering of a natural number, digit characters only
(`roomIdToString` renders the BigInt room id in base 10). -/
def natToDecGo : Nat → Nat → Str → Str
  | 0, _, acc => acc
  | fuel + 1, n, acc =>
    let acc2 := Char.ofNat (48 + n % 10) :: acc
    if n < 10 then acc2 else natToDecGo fuel (n / 10) acc2

/-- `roomIdToString` from `src/utils/roomId.ts`: decimal string of the id. -/
def roomIdToString (roomId : Nat) : Str := natToDecGo (roomId + 1) roomId []

/-- `matchIdToRoomId` from `src/utils/roomId.ts`: parse
`match_<timestampMs>_<suffix>` and build `(tsMs <<< 16) ||| hash16 suffix`;
throws on any other shape. -/
def matchIdToRoomId (matchId : Str) : Except String Nat :=
  match matchId with
  | 'm' :: 'a' :: 't' :: 'c' :: 'h' :: '_' :: rest =>
    let digits := rest.takeWhile isDecChar
    let after := rest.dropWhile isDecChar
    match after with
    | '_' :: suffix =>
      if digits = [] ∨ suffix = [] then .error "Unexpected matchId format"
      else
        let tsMs := digits.foldl (fun n c => n * 10 + (c.toNat - 48)) 0
        .ok ((tsMs * 65536) ||| hash16 suffix)
    | _ => .error "Unexpected matchId format"
  | _ => .error "Unexpected matchId format"

/-! ## TonBlockchainService comment parsing -/

/-- The comment produced by `JoinIntentService.getPaymentParams`
(room-binding variant): `"join:" + onChainRoomId + ":" + nonce`. -/
def mkJoinComment (roomId nonce : Str) : Str :=
  'j' :: 'o' :: 'i' :: 'n' :: ':' :: (roomId ++ ':' :: nonce)

/-- `TonBlockchainService.extractRoomIdAndNonceFromComment`: trim, require the
`join:` tag, split the remainder on `:` into exactly two segments, and accept
only when the nonce segment is 64 hex characters.  (The two legacy fallback
branches in the source return `null` in every case and are folded into the
final `none`.) -/
def extractRoomIdAndNonceFromComment (comment : Str) : Option (Str × Str) :=
  match trimChars comment with
  | 'j' :: 'o' :: 'i' :: 'n' :: ':' :: rest =>
    match splitOnChar ':' rest with
    | [roomId, nonce] => if isHex64 nonce then some (roomId, nonce) else none
    | _ => none
  | _ => none

/-! ## Shared configuration model (constants/rooms.ts, types/game.ts) -/

inductive RoomType
  | free
  | stars
  | ton
deriving DecidableEq, Repr

/-- `RoomPreset` from `types/game.ts`; `maxPlayers` is environment-configurable
in `constants/rooms.ts`, so presets stay a parameter of every operation. -/
structure RoomPreset where
  id : Str
  type : RoomType
  entryFee : ℚ
  maxPlayers : Nat
  rounds : Nat
  platformFee : ℚ
deriving DecidableEq, Repr

/-- `ROOM_PRESETS.find((p) => p.type === roomType)`. -/
def findPreset (presets : List RoomPreset) (rt : RoomType) : Option RoomPreset :=
  presets.find? (fun p => decide (p.type = rt))

/-- The `ROOM_PRESETS` of `constants/rooms.ts` under the default environment
(no `MAX_PLAYERS*` overrides, so every room holds 2 players). -/
def defaultPresets : List RoomPreset :=
  [ ⟨"free_0".data, RoomType.free, 0, 2, 3, 0⟩,
    ⟨"stars_25".data, RoomType.stars, 25, 2, 3, 10⟩,
    ⟨"ton_0_1".data, RoomType.ton, 1 / 10, 2, 3, 10⟩ ]

/-! ## JoinIntentService data model (room-binding variant) -/

inductive IntentStatus
  | CREATED
  | PAID
  | CANCELLED
  | REFUNDED
deriving DecidableEq, Repr

/-- A `join_intents` database row (Prisma model) as read through
`dbIntentToIntent`; monetary amounts are exact rationals, timestamps epoch
milliseconds. -/
structure JoinIntentRow where
  id : Str
  roomId : Option Str
  onChainRoomId : Option Str
  playerId : Str
  walletId : Str
  roomType : RoomType
  stake : ℚ
  nonce : Str
  status : IntentStatus
  expiresAt : Nat
  createdAt : Nat
  paidAt : Option Nat
  cancelledAt : Option Nat
  refundedAt : Option Nat
deriving DecidableEq, Repr

structure WalletRow where
  id : Str
  playerId : Str
  address : Str
deriving DecidableEq, Repr

/-- Accumulator fold keeping the first element with the maximal key. -/
def pickMax {α : Type} (key : α → Nat) (acc : Option α) (x : α) : Option α :=
  match acc with
  | none => some x
  | some a => if key a < key x then some x else acc

/-- Prisma `findFirst` with a descending `orderBy` key: the first row (in table
order) among those satisfying `p` whose key is maximal. -/
def findMaxBy {α : Type} (l : List α) (p : α → Bool) (key : α → Nat) : Option α :=
  (l.filter p).foldl (pickMax key) none

/-- `prisma.joinIntent.findFirst({where:{playerId, roomType, status:'CREATED',
expiresAt:{gt:now}}, orderBy:{createdAt:'desc'}})`. -/
def findExistingActiveIntent (db : List JoinIntentRow) (playerId : Str)
    (rt : RoomType) (now : Nat) : Option JoinIntentRow :=
  findMaxBy db
    (fun i => decide (i.playerId = playerId ∧ i.roomType = rt ∧
      i.status = IntentStatus.CREATED ∧ now < i.expiresAt))
    (fun i => i.createdAt)

/-- Payment parameters returned to the client; the amount is the nanoton
integer that the source renders with `.toString()`. -/
structure PaymentParams where
  toAddr : Str
  amount : Int
  comment : Str
deriving DecidableEq, Repr

/-- Environment configuration used by `JoinIntentService`:
`TON_ESCROW_ADDRESS` and `TON_GAS_RESERVE` (default 0.05 TON). -/
structure JIConfig where
  escrowAddress : Option Str
  gasReserveTon : ℚ
deriving DecidableEq, Repr

/-- `JoinIntentService.getPaymentParams` (room-binding variant): requires the
escrow address and a truthy `onChainRoomId`; amount is
`floor(stake*1e9) + floor(gasReserve*1e9)` nanotons and the comment is
`join:<onChainRoomId>:<nonce>`. -/
def getPaymentParams (cfg : JIConfig) (intent : JoinIntentRow) :
    Except String PaymentParams :=
  match cfg.escrowAddress with
  | none => .error "TON_ESCROW_ADDRESS not configured in environment"
  | some escrowAddress =>
    match truthyStr intent.onChainRoomId with
    | none => .error "Intent missing onChainRoomId"
    | some rid =>
      let entryNano : Int := Int.floor (intent.stake * 1000000000)
      let gasReserveNano : Int := Int.floor (cfg.gasReserveTon * 1000000000)
      .ok ⟨escrowAddress, entryNano + gasReserveNano, mkJoinComment rid intent.nonce⟩

/-- The row `prisma.joinIntent.create` inserts in the room-binding
`createJoinIntent`: fresh nonce, five-minute expiry, bound match id and
derived on-chain room id. -/
def freshIntentRow (newIntentId mmatchId : Str) (rid : Nat)
    (playerId walletId : Str) (rt : RoomType) (stake : ℚ) (nonce : Str)
    (now : Nat) : JoinIntentRow :=
  { id := newIntentId
    roomId := some mmatchId
    onChainRoomId := some (roomIdToString rid)
    playerId := playerId
    walletId := walletId
    roomType := rt
    stake := stake
    nonce := nonce
    status := IntentStatus.CREATED
    expiresAt := now + 300000
    createdAt := now
    paidAt := none
    cancelledAt := none
    refundedAt := none }

/-- `JoinIntentService.createJoinIntent` (room-binding variant).  The
matchmaker call is represented by the id of the match it returned
(`mmatchId`); the fresh intent id, the generated nonce and the clock are
explicit parameters.  Returns the updated table together with the intent and
its payment parameters, or the thrown error. -/
def createJoinIntent (cfg : JIConfig) (presets : List RoomPreset)
    (wallets : List WalletRow) (db : List JoinIntentRow) (playerId : Str)
    (rt : RoomType) (mmatchId : Str) (newIntentId nonce : Str) (now : Nat) :
    List JoinIntentRow × Except String (JoinIntentRow × PaymentParams) :=
  match wallets.find? (fun w => decide (w.playerId = playerId)) with
  | none => (db, .error "Wallet not connected")
  | some wallet =>
    match findPreset presets rt with
    | none => (db, .error "Room preset not found")
    | some preset =>
      match findExistingActiveIntent db playerId rt now with
      | some existingIntent =>
        match getPaymentParams cfg existingIntent with
        | .error e => (db, .error e)
        | .ok pp => (db, .ok (existingIntent, pp))
      | none =>
        match matchIdToRoomId mmatchId with
        | .error e => (db, .error e)
        | .ok onChainRoomId =>
          let row : JoinIntentRow :=
            { id := newIntentId
              roomId := some mmatchId
              onChainRoomId := some (roomIdToString onChainRoomId)
              playerId := playerId
              walletId := wallet.id
              roomType := rt
              stake := preset.entryFee
              nonce := nonce
              status := IntentStatus.CREATED
              expiresAt := now + 300000
              createdAt := now
              paidAt := none
              cancelledAt := none
              refundedAt := none }
          let db2 := db ++ [row]
          match getPaymentParams cfg row with
          | .error e => (db2, .error e)
          | .ok pp => (db2, .ok (row, pp))

/-- `JoinIntentService.markIntentPaid`: look the intent up by id, require
status `CREATED`, then set status `PAID` and stamp `paidAt`.  Thrown errors
leave the table untouched. -/
def markIntentPaid (db : List JoinIntentRow) (intentId : Str) (txHash : Str)
    (now : Nat) : List JoinIntentRow × Except String JoinIntentRow :=
  match db.find? (fun i => decide (i.id = intentId)) with
  | none => (db, .error "Intent not found")
  | some i =>
    if i.status ≠ IntentStatus.CREATED then
      (db, .error "Intent is not in CREATED status")
    else
      let updated := { i with status := IntentStatus.PAID, paidAt := some now }
      (db.map (fun j => if j.id = intentId then updated else j), .ok updated)

/-- `JoinIntentService.getIntentForMatch`: newest `PAID` intent (by `paidAt`)
linked to the given player and match. -/
def getIntentForMatch (db : List JoinIntentRow) (playerId matchId : Str) :
    Option JoinIntentRow :=
  findMaxBy db
    (fun i => decide (i.playerId = playerId ∧ i.roomId = some matchId ∧
      i.status = IntentStatus.PAID))
    (fun i => i.paidAt.getD 0)

inductive RefundReason
  | player_left
  | match_cancelled
deriving DecidableEq, Repr

/-- A `refunds` database row; `joinIntentId` carries a unique constraint. -/
structure RefundRow where
  id : Str
  joinIntentId : Str
  amount : ℚ
  toAddress : Str
  status : Str
  reason : RefundReason
deriving DecidableEq, Repr

/-- Joint state touched by `createRefundForPlayer`. -/
structure RefundState where
  intents : List JoinIntentRow
  refunds : List RefundRow
deriving DecidableEq, Repr

/-- `JoinIntentService.createRefundForPlayer`: no `PAID` intent → `none`
("no refund needed"); an existing refund row for the intent → its id;
otherwise create one refund row over the full stake to the player's wallet
address and flip the intent `PAID → REFUNDED`. -/
def createRefundForPlayer (st : RefundState) (wallets : List WalletRow)
    (playerId matchId : Str) (reason : RefundReason) (newRefundId : Str)
    (now : Nat) : RefundState × Except String (Option Str) :=
  match getIntentForMatch st.intents playerId matchId with
  | none => (st, .ok none)
  | some intent =>
    match st.refunds.find? (fun r => decide (r.joinIntentId = intent.id)) with
    | some existingRefund => (st, .ok (some existingRefund.id))
    | none =>
      match wallets.find? (fun w => decide (w.playerId = playerId)) with
      | none => (st, .error "Wallet not found")
      | some wallet =>
        let refund : RefundRow :=
          ⟨newRefundId, intent.id, intent.stake, wallet.address,
            "CREATED".data, reason⟩
        let intents2 := st.intents.map (fun j =>
          if j.id = intent.id then
            { j with status := IntentStatus.REFUNDED, refundedAt := some now }
          else j)
        (⟨intents2, st.refunds ++ [refund]⟩, .ok (some newRefundId))

/-! ## TonBlockchainService transaction matching -/

/-- Inbound message of a transaction (fields the service reads). -/
structure TonInMsg where
  value : Option Str
  destinationAddress : Option Str
  sourceAddress : Option Str
  msgText : Option Str
deriving DecidableEq, Repr

/-- `TonTransaction` as consumed by `checkIncomingTransactions`; the nested
optional chains `account?.address` and `from?.address` are flattened into
single optional fields. -/
structure TonTransaction where
  hash : Str
  lt : Option Nat
  accountAddress : Option Str
  fromAddress : Option Str
  inMsg : Option TonInMsg
  blockTime : Nat
deriving DecidableEq, Repr

/-- Entry of the reconciliation output `matches`. -/
structure TransactionMatch where
  intentId : Str
  nonce : Str
  txHash : Str
  fromAddress : Str
  amount : Str
  blockTime : Nat
deriving DecidableEq, Repr

/-- `TonBlockchainService.extractComment`: the text comment of the inbound
message, `null` when absent or empty. -/
def extractComment (tx : TonTransaction) : Option Str :=
  truthyStr (tx.inMsg.bind TonInMsg.msgText)

/-- `TonBlockchainService.extractAmount`: strictly `inMsg.value`; `null` when
the field is missing or falsy.  `outMessages` are never consulted. -/
def extractAmount (tx : TonTransaction) : Option Str :=
  truthyStr (tx.inMsg.bind TonInMsg.value)

/-- `TonBlockchainService.verifyEscrowDestination`: prefer
`inMsg.destination.address`, fall back to `account.address`, reject when
neither is determinable. -/
def verifyEscrowDestination (tx : TonTransaction) (escrowAddress : Str) : Bool :=
  match truthyStr (tx.inMsg.bind TonInMsg.destinationAddress) with
  | some d => decide (d = escrowAddress)
  | none =>
    match truthyStr tx.accountAddress with
    | some a => decide (a = escrowAddress)
    | none => false

/-- Value stored against a nonce in the worker's `nonceMap`. -/
structure IntentRef where
  intentId : Str
  onChainRoomId : Option Str
deriving DecidableEq, Repr

/-- The `CREATED`-and-unexpired intents the service loads before matching. -/
def activeIntents (db : List JoinIntentRow) (now : Nat) : List JoinIntentRow :=
  db.filter (fun i => decide (i.status = IntentStatus.CREATED ∧ now < i.expiresAt))

/-- `new Map(activeIntents.map(intent => [intent.nonce, {...}]))`. -/
def buildNonceMap (db : List JoinIntentRow) (now : Nat) : List (Str × IntentRef) :=
  (activeIntents db now).map (fun i => (i.nonce, ⟨i.id, i.onChainRoomId⟩))

/-- JS `Map.get`: with duplicate keys the later insertion wins. -/
def jsMapGet (l : List (Str × IntentRef)) (k : Str) : Option IntentRef :=
  (l.reverse.find? (fun e => decide (e.1 = k))).map (fun e => e.2)

/-- `if (sinceLt && tx.lt && BigInt(tx.lt) <= BigInt(sinceLt)) continue`. -/
def ltSkipCheck (sinceLt lt : Option Nat) : Bool :=
  match sinceLt, lt with
  | some s, some l => decide (l ≤ s)
  | _, _ => false

/-- The body of the `for (const tx of transactions)` loop of
`checkIncomingTransactions`: each `continue` is a `none` (the two negated
guards `roomId mismatch` and `not escrow destination` are written as their
positive continuations). -/
def processTx (nonceMap : List (Str × IntentRef)) (escrowAddress : Str)
    (sinceLt : Option Nat) (tx : TonTransaction) : Option TransactionMatch :=
  match ltSkipCheck sinceLt tx.lt with
  | true => none
  | false =>
    match extractComment tx with
    | none => none
    | some comment =>
      match extractRoomIdAndNonceFromComment comment with
      | none => none
      | some (roomId, nonce) =>
        match jsMapGet nonceMap nonce with
        | none => none
        | some intentData =>
          match truthyStr intentData.onChainRoomId with
          | none => none
          | some rid =>
            if rid = roomId then
              if verifyEscrowDestination tx escrowAddress then
                match extractAmount tx with
                | none => none
                | some amount =>
                  if jsOrStr ((tx.inMsg.bind TonInMsg.sourceAddress).getD [])
                      (tx.fromAddress.getD []) = [] then none
                  else
                    some ⟨intentData.intentId, nonce, tx.hash,
                      jsOrStr ((tx.inMsg.bind TonInMsg.sourceAddress).getD [])
                        (tx.fromAddress.getD []),
                      amount, tx.blockTime⟩
              else none
            else none

/-- The `matches` list assembled by `checkIncomingTransactions` over a batch
of already-decoded transactions. -/
def checkIncomingMatches (db : List JoinIntentRow) (now : Nat)
    (escrowAddress : Str) (sinceLt : Option Nat) (txs : List TonTransaction) :
    List TransactionMatch :=
  txs.filterMap (processTx (buildNonceMap db now) escrowAddress sinceLt)

/-! ## Game data model (types/game.ts) -/

structure Player where
  id : Str
  name : Str
  score : Nat
  pressTime : Option Nat
  position : Option Nat
deriving DecidableEq, Repr

inductive MatchStatus
  | waiting
  | playing
  | finished
deriving DecidableEq, Repr

structure RoundResult where
  roundNumber : Nat
  players : List Player
  endTime : Nat
deriving DecidableEq, Repr

/-- The central `Match` aggregate; `undefined` optional fields are `none`
(`statsUpdated` absent is modelled as `false`), dates and round times are
epoch/elapsed milliseconds. -/
structure Match where
  id : Str
  roomType : RoomType
  status : MatchStatus
  players : List Player
  allPlayers : Option (List Player)
  currentRound : Nat
  roundResults : List RoundResult
  createdAt : Nat
  startedAt : Option Nat
  finishedAt : Option Nat
  roundStartTime : Option Nat
  roundEndTime : Option Nat
  statsUpdated : Bool
deriving DecidableEq, Repr

/-! ## utils/gameLogic.ts -/

/-- The `validPlayers` filter of `calculateRoundScores`: JS
`if (!player.pressTime) return false; return player.pressTime <= endTime;` —
note that a press at elapsed time 0 is falsy and therefore invalid. -/
def isValidPress (endTime : Nat) (p : Player) : Bool :=
  match p.pressTime with
  | none => false
  | some t => decide (t ≠ 0 ∧ t ≤ endTime)

/-- `delta = endTime - (player.pressTime || 0)`. -/
def pressDelta (endTime : Nat) (p : Player) : Nat :=
  endTime - p.pressTime.getD 0

/-- Stable insertion into a delta-ascending list: the new element goes after
every strictly smaller delta and before equal ones coming later. -/
def insertByDelta (endTime : Nat) (p : Player) : List Player → List Player
  | [] => [p]
  | q :: rest =>
    if pressDelta endTime q < pressDelta endTime p then
      q :: insertByDelta endTime p rest
    else p :: q :: rest

/-- Stable ascending insertion sort by delta. -/
def sortByDelta (endTime : Nat) : List Player → List Player
  | [] => []
  | p :: rest => insertByDelta endTime p (sortByDelta endTime rest)

/-- Valid players sorted ascending by delta (`validPlayers.sort((a, b) =>
a.delta - b.delta)`; `Array.prototype.sort` is required stable, and stable
insertion sort is the matching model). -/
def sortValid (players : List Player) (endTime : Nat) : List Player :=
  sortByDelta endTime (players.filter (isValidPress endTime))

/-- `Math.max(1, 10 - position)` (for `position > 10` the JS value is
negative, so both sides clamp to 1). -/
def rankScore (position : Nat) : Nat := max 1 (10 - position)

/-- `scoredPlayers`: rank `k` (1-based sort index) gets `max(1, 10-k)`. -/
def scoredPlayers (players : List Player) (endTime : Nat) : List Player :=
  (sortValid players endTime).enum.map (fun e =>
    { e.2 with score := rankScore (e.1 + 1), position := some (e.1 + 1) })

/-- `invalidPlayers`: no press (or falsy press) or press after the deadline
scores 0 with no position. -/
def invalidPlayers (players : List Player) (endTime : Nat) : List Player :=
  (players.filter (fun p => ¬ isValidPress endTime p)).map
    (fun p => { p with score := 0, position := none })

/-- `calculateRoundScores` from `utils/gameLogic.ts`. -/
def calculateRoundScores (players : List Player) (endTime : Nat) : List Player :=
  let allPlayers := scoredPlayers players endTime ++ invalidPlayers players endTime
  allPlayers.map (fun p =>
    match players.find? (fun q => decide (q.id = p.id)) with
    | some existingPlayer =>
      { existingPlayer with
          score := p.score, position := p.position, pressTime := p.pressTime }
    | none => p)

/-! ## GameService -/

/-- JS truthiness guard `!match.roundStartTime || !match.roundEndTime`:
a round is in progress when both timers are set and non-zero. -/
def RoundLive (m : Match) : Prop :=
  (∃ s, m.roundStartTime = some s ∧ s ≠ 0) ∧
    (∃ e, m.roundEndTime = some e ∧ e ≠ 0)

instance : DecidablePred RoundLive := fun m => by
  unfold RoundLive
  infer_instance

/-- `GameService.startRound`; the random `generateEndTime(5, 15)` draw is the
explicit `rndEnd` parameter and the clock is `now`. -/
def startRound (presets : List RoomPreset) (m : Match) (now rndEnd : Nat) :
    Except String Match :=
  match findPreset presets m.roomType with
  | none => .error "Room preset not found"
  | some preset =>
    if m.status ≠ MatchStatus.playing then .error "Match is not in playing status"
    else if preset.rounds < m.currentRound + 1 then .error "All rounds completed"
    else
      .ok { m with
        players := m.players.map (fun p =>
          { p with pressTime := none, position := none })
        currentRound := m.currentRound + 1
        roundStartTime := some now
        roundEndTime := some rndEnd }

/-- In-place mutation of the first player with the given id (JS mutates the
object found by `Array.prototype.find`). -/
def updateFirstPlayer : List Player → Str → (Player → Player) → List Player
  | [], _, _ => []
  | p :: rest, pid, f =>
    if p.id = pid then f p :: rest else p :: updateFirstPlayer rest pid f

/-- `GameService.recordPress`. -/
def recordPress (m : Match) (playerId : Str) (now : Nat) :
    Except String Match :=
  if h : RoundLive m then
    match m.players.find? (fun p => decide (p.id = playerId)) with
    | none => .error "Player not found in match"
    | some player =>
      if player.pressTime ≠ none then .ok m
      else
        let s := m.roundStartTime.getD 0
        let setPress : Player → Player := fun p => { p with pressTime := some (now - s) }
        .ok { m with players := updateFirstPlayer m.players playerId setPress }
  else .error "Round not started"

/-- `GameService.endRound`. -/
def endRound (presets : List RoomPreset) (m : Match) (now : Nat) :
    Except String (Match × RoundResult) :=
  if h : RoundLive m then
    let e := m.roundEndTime.getD 0
    let roundPlayers := calculateRoundScores m.players e
    let players2 := m.players.map (fun p =>
      match roundPlayers.find? (fun q => decide (q.id = p.id)) with
      | some roundPlayer =>
        { p with
            score := p.score + roundPlayer.score
            pressTime := roundPlayer.pressTime
            position := roundPlayer.position }
      | none => p)
    let allPlayers2 :=
      match m.allPlayers with
      | none => none
      | some aps => some (aps.map (fun p =>
          match players2.find? (fun q => decide (q.id = p.id)) with
          | some activePlayer => { p with score := activePlayer.score }
          | none => p))
    let roundResult : RoundResult :=
      ⟨m.currentRound,
        roundPlayers.map (fun p =>
          { p with score :=
              match roundPlayers.find? (fun rp => decide (rp.id = p.id)) with
              | some rp => rp.score
              | none => 0 }),
        e⟩
    let m2 := { m with
      players := players2
      allPlayers := allPlayers2
      roundResults := m.roundResults ++ [roundResult]
      roundStartTime := none
      roundEndTime := none }
    let m3 :=
      match findPreset presets m2.roomType with
      | some preset =>
        if preset.rounds ≤ m2.currentRound then
          { m2 with status := MatchStatus.finished, finishedAt := some now }
        else m2
      | none => m2
    .ok (m3, roundResult)
  else .error "Round not started"

/-! ## Matchmaker (persistence-restore variant) -/

/-- `ActiveMatch`: a match plus the socket ids attached to it. -/
structure ActiveMatch where
  matchData : Match
  sockets : List Str
deriving DecidableEq, Repr

/-- The Matchmaker's in-memory tables (`activeMatches`, `playerToMatch`);
JS `Map`s in insertion order. -/
structure MMState where
  activeMatches : List (Str × ActiveMatch)
  playerToMatch : List (Str × Str)
deriving DecidableEq, Repr

/-- JS `Map.get` on an association list.  `Map` keys are unique (a `set` of
an existing key overwrites in place), so the first binding is the binding. -/
def assocGet {β : Type} (l : List (Str × β)) (k : Str) : Option β :=
  (l.find? (fun e => decide (e.1 = k))).map (fun e => e.2)

/-- JS `Map.set`: overwrite in place, or append preserving insertion order. -/
def assocSet {β : Type} (l : List (Str × β)) (k : Str) (v : β) :
    List (Str × β) :=
  if l.any (fun e => decide (e.1 = k)) then
    l.map (fun e => if e.1 = k then (k, v) else e)
  else l ++ [(k, v)]

/-- JS `Map.delete`. -/
def assocDelete {β : Type} (l : List (Str × β)) (k : Str) : List (Str × β) :=
  l.filter (fun e => decide (e.1 ≠ k))

def mmGet (st : MMState) (matchId : Str) : Option ActiveMatch :=
  assocGet st.activeMatches matchId

def mmSet (st : MMState) (matchId : Str) (am : ActiveMatch) : MMState :=
  { st with activeMatches := assocSet st.activeMatches matchId am }

def setP2M (st : MMState) (playerId matchId : Str) : MMState :=
  { st with playerToMatch := assocSet st.playerToMatch playerId matchId }

/-- The in-memory candidate filter of `findOrCreateMatch` (`waitingMatches`):
same room type, still `waiting`, non-empty, below capacity. -/
def selectWaitingMatches (st : MMState) (rt : RoomType) (preset : RoomPreset) :
    List ActiveMatch :=
  (st.activeMatches.map (fun e => e.2)).filter (fun am =>
    decide (am.matchData.roomType = rt) &&
    decide (am.matchData.status = MatchStatus.waiting) &&
    decide (0 < am.matchData.players.length) &&
    decide (am.matchData.players.length < preset.maxPlayers))

/-- A fresh `waiting` match as built at the end of `findOrCreateMatch`. -/
def newWaitingMatch (rt : RoomType) (player : Player) (newId : Str)
    (now : Nat) : Match :=
  { id := newId
    roomType := rt
    status := MatchStatus.waiting
    players := [player]
    allPlayers := some [player]
    currentRound := 0
    roundResults := []
    createdAt := now
    startedAt := none
    finishedAt := none
    roundStartTime := none
    roundEndTime := none
    statsUpdated := false }

/-- The in-memory shape of a match restored from the database
(`restoredMatch`, lines 571-590): players keep id/name/score only,
`roundResults` restarts empty, timers are unset. -/
def restoreShape (dm : Match) : Match :=
  let ps : List Player := dm.players.map (fun p =>
    { id := p.id, name := p.name, score := p.score,
      pressTime := none, position := none })
  { id := dm.id
    roomType := dm.roomType
    status := dm.status
    players := ps
    allPlayers := some ps
    currentRound := dm.currentRound
    roundResults := []
    createdAt := dm.createdAt
    startedAt := dm.startedAt
    finishedAt := dm.finishedAt
    roundStartTime := none
    roundEndTime := none
    statsUpdated := false }

/-- The re-validation step of `findOrCreateMatch` (lines 614-634): re-fetch
the candidate from the live table and re-check
`status == waiting && players.length < maxPlayers`; `none` means "create a
new match instead". -/
def revalidateCand (st : MMState) (preset : RoomPreset) :
    Option ActiveMatch → Option ActiveMatch
  | none => none
  | some c =>
    if c.matchData.players.length < preset.maxPlayers then
      match mmGet st c.matchData.id with
      | none => none
      | some stillActive =>
        if stillActive.matchData.status ≠ MatchStatus.waiting ∨
            preset.maxPlayers ≤ stillActive.matchData.players.length then
          none
        else some stillActive
    else some c

/-- `waitingMatch.match.players.push(player)` plus the `allPlayers` upkeep of
lines 653-661, on the live `ActiveMatch` object. -/
def pushPlayer (player : Player) (wm : ActiveMatch) : ActiveMatch :=
  { wm with matchData :=
      { wm.matchData with
          players := wm.matchData.players ++ [player]
          allPlayers :=
            match wm.matchData.allPlayers with
            | none => some (wm.matchData.players ++ [player])
            | some aps =>
              if aps.any (fun p => decide (p.id = player.id)) then some aps
              else some (aps ++ [player]) } }

/-- The create-new-match tail of `findOrCreateMatch` (lines 666-688). -/
def joinNew (st : MMState) (rt : RoomType) (player : Player) (newId : Str)
    (now : Nat) : Match × MMState :=
  (newWaitingMatch rt player newId now,
    setP2M (mmSet st newId ⟨newWaitingMatch rt player newId now, []⟩)
      player.id newId)

/-- Lines 636-664: duplicate-join no-op, or push into the re-validated
match; falls back to a fresh match when the candidate is (still) full. -/
def joinExisting (st : MMState) (preset : RoomPreset) (rt : RoomType)
    (player : Player) (newId : Str) (now : Nat) (wm : ActiveMatch) :
    Match × MMState :=
  if wm.matchData.players.length < preset.maxPlayers then
    if wm.matchData.players.any (fun p => decide (p.id = player.id)) then
      (wm.matchData, setP2M st player.id wm.matchData.id)
    else
      ((pushPlayer player wm).matchData,
        setP2M (mmSet st wm.matchData.id (pushPlayer player wm)) player.id
          wm.matchData.id)
  else joinNew st rt player newId now

/-- The tail of `findOrCreateMatch` after the candidate was chosen (lines
614-689): re-validate against the live table, then either no-op on a
duplicate join, push the player into the live match, or create a fresh
match.  `cand` is the (possibly stale) reference held across the
asynchronous gap. -/
def joinPhase (st : MMState) (preset : RoomPreset) (rt : RoomType)
    (player : Player) (cand : Option ActiveMatch) (newId : Str) (now : Nat) :
    Match × MMState :=
  match revalidateCand st preset cand with
  | some wm => joinExisting st preset rt player newId now wm
  | none => joinNew st rt player newId now

/-- `Matchmaker.findOrCreateMatch` run without interleaving: preset lookup,
in-memory candidate selection, database restore fallback (`dbMatch` is what
`prisma.match.findFirst` returned), then the join phase. -/
def findOrCreateMatch (presets : List RoomPreset) (st : MMState)
    (rt : RoomType) (player : Player) (dbMatch : Option Match)
    (newId : Str) (now : Nat) : Except String (Match × MMState) :=
  match findPreset presets rt with
  | none => .error "Room preset not found"
  | some preset =>
    match (selectWaitingMatches st rt preset).head? with
    | some wm => .ok (joinPhase st preset rt player (some wm) newId now)
    | none =>
      match dbMatch with
      | some dm =>
        if dm.players.length < preset.maxPlayers then
          let restored : ActiveMatch := ⟨restoreShape dm, []⟩
          let st2 := mmSet st dm.id restored
          let st3 := dm.players.foldl (fun s p => setP2M s p.id dm.id) st2
          .ok (joinPhase st3 preset rt player (mmGet st3 dm.id) newId now)
        else .ok (joinPhase st preset rt player none newId now)
      | none => .ok (joinPhase st preset rt player none newId now)

/-- `Matchmaker.startMatch` (lines 747-781): `waiting → playing` only when the
preset exists, the match is full, and at least two players are present;
otherwise `undefined` and no state change. -/
def startMatch (presets : List RoomPreset) (st : MMState) (matchId : Str)
    (now : Nat) : Option Match × MMState :=
  match mmGet st matchId with
  | none => (none, st)
  | some activeMatch =>
    let m := activeMatch.matchData
    match findPreset presets m.roomType with
    | none => (none, st)
    | some preset =>
      if m.status ≠ MatchStatus.waiting then (none, st)
      else if m.players.length < preset.maxPlayers then (none, st)
      else if m.players.length < 2 then (none, st)
      else
        let m2 := { m with status := MatchStatus.playing, startedAt := some now }
        (some m2, mmSet st matchId { activeMatch with matchData := m2 })

/-- `Matchmaker.removePlayer`: drop the player from the roster (never from
`allPlayers`); purge the match when the roster empties. -/
def removePlayer (st : MMState) (playerId : Str) : MMState :=
  match assocGet st.playerToMatch playerId with
  | none => st
  | some matchId =>
    match mmGet st matchId with
    | none => st
    | some activeMatch =>
      let remaining := activeMatch.matchData.players.filter
        (fun p => decide (p.id ≠ playerId))
      let st2 :=
        if remaining.length = 0 then
          { st with activeMatches := assocDelete st.activeMatches matchId }
        else
          mmSet st matchId
            { activeMatch with
                matchData := { activeMatch.matchData with players := remaining } }
      { st2 with playerToMatch := assocDelete st2.playerToMatch playerId }

/-! ## System step relation

One step per externally triggerable in-memory mutation of the match table.
The `gameOp` constructors model the socket handlers mutating the match object
held in `activeMatches` (reference semantics: the updated match is written
back under its key).  `joinResume` additionally models a `findOrCreateMatch`
continuation resuming with a stale candidate reference after an asynchronous
gap — the situation the source's re-validation defends against. -/

inductive Step (presets : List RoomPreset) : MMState → MMState → Prop
  | findOrCreate (st : MMState) (rt : RoomType) (player : Player)
      (dbMatch : Option Match) (newId : Str) (now : Nat)
      (m : Match) (st2 : MMState)
      (hdb : ∀ dm, dbMatch = some dm →
        dm.status = MatchStatus.waiting ∧ dm.roomType = rt)
      (hrun : findOrCreateMatch presets st rt player dbMatch newId now =
        .ok (m, st2)) :
      Step presets st st2
  | joinResume (st : MMState) (preset : RoomPreset) (rt : RoomType)
      (player : Player) (cand : Option ActiveMatch) (newId : Str) (now : Nat)
      (hp : findPreset presets rt = some preset)
      (hcand : ∀ c, cand = some c → ∀ am, mmGet st c.matchData.id = some am →
        am.matchData.roomType = rt) :
      Step presets st (joinPhase st preset rt player cand newId now).2
  | start (st : MMState) (matchId : Str) (now : Nat) :
      Step presets st (startMatch presets st matchId now).2
  | remove (st : MMState) (playerId : Str) :
      Step presets st (removePlayer st playerId)
  | roundStart (st : MMState) (matchId : Str) (am : ActiveMatch)
      (now rndEnd : Nat) (m2 : Match)
      (hget : mmGet st matchId = some am)
      (hrun : startRound presets am.matchData now rndEnd = .ok m2) :
      Step presets st (mmSet st matchId { am with matchData := m2 })
  | press (st : MMState) (matchId : Str) (am : ActiveMatch) (pid : Str)
      (now : Nat) (m2 : Match)
      (hget : mmGet st matchId = some am)
      (hrun : recordPress am.matchData pid now = .ok m2) :
      Step presets st (mmSet st matchId { am with matchData := m2 })
  | roundEnd (st : MMState) (matchId : Str) (am : ActiveMatch) (now : Nat)
      (m2 : Match) (rr : RoundResult)
      (hget : mmGet st matchId = some am)
      (hrun : endRound presets am.matchData now = .ok (m2, rr)) :
      Step presets st (mmSet st matchId { am with matchData := m2 })

/-- States reachable from the empty Matchmaker. -/
inductive Reachable (presets : List RoomPreset) : MMState → Prop
  | init : Reachable presets ⟨[], []⟩
  | step {st st2 : MMState} (h : Reachable presets st)
      (hs : Step presets st st2) : Reachable presets st2

/-- Sanity of the preset registry (`constants/rooms.ts` presets always hold at
least one player; the defaults hold two). -/
def PresetsOK (presets : List RoomPreset) : Prop :=
  ∀ p ∈ presets, 1 ≤ p.maxPlayers

/-- Capacity property of one match (claim: `players.length` never exceeds the
preset's `maxPlayers`). -/
def CapOK (presets : List RoomPreset) (m : Match) : Prop :=
  ∀ p, findPreset presets m.roomType = some p →
    m.players.length ≤ p.maxPlayers

/-- Round-progress property of one match (claim: `finished` implies
`currentRound == preset.rounds`): a live round never runs past the preset's
round count, a finished match has played exactly `preset.rounds` rounds with
its timers cleared, and a waiting match has no timers. -/
def RoundOK (presets : List RoomPreset) (m : Match) : Prop :=
  (RoundLive m →
    ∀ p, findPreset presets m.roomType = some p → m.currentRound ≤ p.rounds) ∧
  (m.status = MatchStatus.finished →
    (∃ p, findPreset presets m.roomType = some p ∧
      m.currentRound = p.rounds) ∧
    m.roundStartTime = none ∧ m.roundEndTime = none) ∧
  (m.status = MatchStatus.waiting →
    m.roundStartTime = none ∧ m.roundEndTime = none)

/-- Bookkeeping invariant: table keys are unique and each entry is stored
under its own match id. -/
def KeyInv (st : MMState) : Prop :=
  (st.activeMatches.map (fun e => e.1)).Nodup ∧
    ∀ mid am, (mid, am) ∈ st.activeMatches → am.matchData.id = mid

/-- The full system invariant on the Matchmaker state. -/
def TableInv (presets : List RoomPreset) (st : MMState) : Prop :=
  KeyInv st ∧
    ∀ mid am, (mid, am) ∈ st.activeMatches →
      CapOK presets am.matchData ∧ RoundOK presets am.matchData

/-! ## EscrowService -/

/-- `EscrowService.validateDepositAmount` with amounts as exact rationals:
accept when `|received − expected|` is within the 0.001 TON tolerance. -/
def validateDepositAmount (receivedAmount expectedAmount : ℚ) : Bool :=
  let tolerance : ℚ := 1 / 1000
  let difference : ℚ := |receivedAmount - expectedAmount|
  decide (difference ≤ tolerance)

/-! ## Sample data for concrete witnesses -/

/-- A sample `CREATED` intent row. -/
def sampleCreatedIntent : JoinIntentRow :=
  { id := "i1".data
    roomId := some "m1".data
    onChainRoomId := some "123".data
    playerId := "p1".data
    walletId := "w1".data
    roomType := RoomType.ton
    stake := 1 / 10
    nonce := List.replicate 64 'a'
    status := IntentStatus.CREATED
    expiresAt := 1000
    createdAt := 0
    paidAt := none
    cancelledAt := none
    refundedAt := none }

/-- A sample `PAID` intent row linked to match `m1`. -/
def samplePaidIntent : JoinIntentRow :=
  { sampleCreatedIntent with
      id := "i2".data
      nonce := List.replicate 64 'b'
      status := IntentStatus.PAID
      paidAt := some 50 }

/-- The wallet of player `p1`. -/
def sampleWallet : WalletRow := ⟨"w1".data, "p1".data, "addr1".data⟩

/-- Refund-service state holding exactly the sample `PAID` intent. -/
def sampleRefundState : RefundState := ⟨[samplePaidIntent], []⟩

/-- Scoring-example players: presses at 9500 ms, 8000 ms, and none. -/
def samplePlayerA : Player := ⟨"a".data, "A".data, 0, some 9500, none⟩

def samplePlayerB : Player := ⟨"b".data, "B".data, 0, some 8000, none⟩

def samplePlayerC : Player := ⟨"c".data, "C".data, 0, none, none⟩

/-- A player whose press was recorded at elapsed time 0 ms. -/
def samplePlayerZero : Player := ⟨"z".data, "Z".data, 0, some 0, none⟩

/-- A deposit transaction to escrow `esc` carrying the comment of
`sampleCreatedIntent`. -/
def sampleTx : TonTransaction :=
  { hash := "h1".data
    lt := some 5
    accountAddress := some "esc".data
    fromAddress := none
    inMsg := some
      ⟨some "100000000".data, some "esc".data, some "src".data,
        some (mkJoinComment "123".data (List.replicate 64 'a'))⟩
    blockTime := 99 }

/-- The TON room preset of `defaultPresets` (2 players, 3 rounds). -/
def tonPreset : RoomPreset :=
  ⟨"ton_0_1".data, RoomType.ton, 1 / 10, 2, 3, 10⟩

def tonPlayer1 : Player := ⟨"p1".data, "P1".data, 0, none, none⟩

def tonPlayer2 : Player := ⟨"p2".data, "P2".data, 0, none, none⟩

def tonPlayer3 : Player := ⟨"p3".data, "P3".data, 0, none, none⟩

/-- A waiting TON match that has reached capacity (2 of 2 players). -/
def sampleFullMatch : Match :=
  { id := "m1".data
    roomType := RoomType.ton
    status := MatchStatus.waiting
    players := [tonPlayer1, tonPlayer2]
    allPlayers := some [tonPlayer1, tonPlayer2]
    currentRound := 0
    roundResults := []
    createdAt := 0
    startedAt := none
    finishedAt := none
    roundStartTime := none
    roundEndTime := none
    statsUpdated := false }

/-- A stale candidate reference to `sampleFullMatch` as it looked before a
concurrent join filled it (only one player). -/
def sampleStale : ActiveMatch :=
  ⟨{ sampleFullMatch with
      players := [tonPlayer1]
      allPlayers := some [tonPlayer1] }, []⟩

/-- A Matchmaker state holding the (now full) match `m1`. -/
def sampleFullState : MMState :=
  ⟨[("m1".data, ⟨sampleFullMatch, []⟩)],
    [("p1".data, "m1".data), ("p2".data, "m1".data)]⟩

/-- A playing TON match with its third (= last) round live. -/
def sampleLiveMatch : Match :=
  { id := "m9".data
    roomType := RoomType.ton
    status := MatchStatus.playing
    players := [{ tonPlayer1 with pressTime := some 500 }, tonPlayer2]
    allPlayers := some [tonPlayer1, tonPlayer2]
    currentRound := 3
    roundResults := []
    createdAt := 0
    startedAt := some 10
    finishedAt := none
    roundStartTime := some 1000
    roundEndTime := some 11000
    statsUpdated := false }

end LastBack

namespace LastBack

/-! ### Basic string lemmas -/

theorem dropWhile_eq_self_of_all {p : Char → Bool} {s : Str}
    (h : ∀ c ∈ s, p c = false) : s.dropWhile p = s := by
  cases s with
  | nil => rfl
  | cons c rest => simp [List.dropWhile, h c (List.mem_cons_self c rest)]

theorem trimChars_eq_self {s : Str} (h : ∀ c ∈ s, Char.isWhitespace c = false) :
    trimChars s = s := by
  unfold trimChars
  rw [dropWhile_eq_self_of_all h, dropWhile_eq_self_of_all, List.reverse_reverse]
  intro c hc
  exact h c (List.mem_reverse.mp hc)

theorem splitOnChar_ne_nil (sep : Char) (s : Str) : splitOnChar sep s ≠ [] := by
  induction s with
  | nil => simp [splitOnChar]
  | cons c rest ih =>
    simp only [splitOnChar]
    rcases hr : splitOnChar sep rest with _ | ⟨seg, segs⟩
    · exact absurd hr ih
    · by_cases hc : c = sep <;> simp [hc]

theorem splitOnChar_no_sep {sep : Char} {s : Str} (h : sep ∉ s) :
    splitOnChar sep s = [s] := by
  induction s with
  | nil => rfl
  | cons c rest ih =>
    have hc : c ≠ sep := fun hcs => h (hcs ▸ List.mem_cons_self c rest)
    have hr : sep ∉ rest := fun hm => h (List.mem_cons_of_mem c hm)
    simp [splitOnChar, ih hr, hc]

theorem splitOnChar_append_sep {sep : Char} {a b : Str} (h : sep ∉ a) :
    splitOnChar sep (a ++ sep :: b) = a :: splitOnChar sep b := by
  induction a with
  | nil =>
    rcases hb : splitOnChar sep b with _ | ⟨seg, segs⟩
    · exact absurd hb (splitOnChar_ne_nil sep b)
    · simp [splitOnChar, hb]
  | cons c rest ih =>
    have hc : c ≠ sep := fun hcs => h (hcs ▸ List.mem_cons_self c rest)
    have hr : sep ∉ rest := fun hm => h (List.mem_cons_of_mem c hm)
    have hstep : splitOnChar sep (c :: (rest ++ sep :: b)) =
        match splitOnChar sep (rest ++ sep :: b) with
        | [] => [[]]
        | seg :: segs =>
          if c = sep then [] :: seg :: segs else (c :: seg) :: segs := rfl
    rw [List.cons_append, hstep, ih hr]
    simp [hc]

theorem two_le_splitOnChar_length {sep : Char} {s : Str} (h : sep ∈ s) :
    2 ≤ (splitOnChar sep s).length := by
  induction s with
  | nil => cases h
  | cons c rest ih =>
    simp only [splitOnChar]
    rcases hr : splitOnChar sep rest with _ | ⟨seg, segs⟩
    · exact absurd hr (splitOnChar_ne_nil sep rest)
    · by_cases hc : c = sep
      · simp [hc]
      · have hmem : sep ∈ rest := by
          rcases List.mem_cons.mp h with h1 | h2
          · exact absurd h1.symm hc
          · exact h2
        have h2 := ih hmem
        rw [hr] at h2
        simpa [hc] using h2

theorem whitespace_char_cases {c : Char} (hw : Char.isWhitespace c = true) :
    c = ' ' ∨ c = '\t' ∨ c = '\r' ∨ c = '\n' := by
  have h2 : ((c = ' ' ∨ c = '\t') ∨ c = '\r') ∨ c = '\n' := by
    simpa [Char.isWhitespace] using hw
  tauto

theorem isDecChar_not_ws {c : Char} (h : isDecChar c = true) :
    Char.isWhitespace c = false := by
  rcases hw : Char.isWhitespace c with _ | _
  · rfl
  · exfalso
    rcases whitespace_char_cases hw with rfl | rfl | rfl | rfl <;>
      revert h <;> decide

theorem isHexChar_not_ws {c : Char} (h : isHexChar c = true) :
    Char.isWhitespace c = false := by
  rcases hw : Char.isWhitespace c with _ | _
  · rfl
  · exfalso
    rcases whitespace_char_cases hw with rfl | rfl | rfl | rfl <;>
      revert h <;> decide

theorem isDecChar_ne_colon {c : Char} (h : isDecChar c = true) : c ≠ ':' := by
  rintro rfl
  revert h
  decide

theorem isHexChar_ne_colon {c : Char} (h : isHexChar c = true) : c ≠ ':' := by
  rintro rfl
  revert h
  decide

theorem natToDecGo_all_dec :
    ∀ (fuel n : Nat) (acc : Str), (∀ c ∈ acc, isDecChar c = true) →
      ∀ c ∈ natToDecGo fuel n acc, isDecChar c = true := by
  intro fuel
  induction fuel with
  | zero => intro n acc hacc c hc; exact hacc c hc
  | succ f ih =>
    intro n acc hacc c hc
    have hd : isDecChar (Char.ofNat (48 + n % 10)) = true := by
      have h10 : n % 10 < 10 := Nat.mod_lt _ (by norm_num)
      revert h10
      generalize n % 10 = k
      intro h10
      interval_cases k <;> decide
    have hacc2 : ∀ c ∈ (Char.ofNat (48 + n % 10) :: acc), isDecChar c = true := by
      intro x hx
      rcases List.mem_cons.mp hx with rfl | hx2
      · exact hd
      · exact hacc x hx2
    simp only [natToDecGo] at hc
    by_cases hlt : n < 10
    · rw [if_pos hlt] at hc
      exact hacc2 c hc
    · rw [if_neg hlt] at hc
      exact ih (n / 10) _ hacc2 c hc

/-- Every character of `roomIdToString` output is a decimal digit. -/
theorem roomIdToString_all_dec (n : Nat) :
    ∀ c ∈ roomIdToString n, isDecChar c = true :=
  natToDecGo_all_dec (n + 1) n [] (by intro c hc; cases hc)

theorem isHex64_colon_not_mem {nonce : Str} (h : isHex64 nonce = true) :
    ':' ∉ nonce := by
  intro hmem
  simp only [isHex64, Bool.and_eq_true, List.all_eq_true] at h
  exact isHexChar_ne_colon (h.2 ':' hmem) rfl

/-- Central parse characterization: on a comment assembled from a digit-string
room id and a whitespace-free nonce, `extractRoomIdAndNonceFromComment`
succeeds exactly on 64-hex nonces and returns the identical pair. -/
theorem extract_mkJoinComment {roomId nonce : Str}
    (hr : ∀ c ∈ roomId, isDecChar c = true)
    (hn : ∀ c ∈ nonce, Char.isWhitespace c = false) :
    extractRoomIdAndNonceFromComment (mkJoinComment roomId nonce) =
      if isHex64 nonce then some (roomId, nonce) else none := by
  have hnws : ∀ c ∈ mkJoinComment roomId nonce, Char.isWhitespace c = false := by
    intro c hc
    simp only [mkJoinComment, List.mem_cons, List.mem_append] at hc
    rcases hc with rfl | rfl | rfl | rfl | rfl | hc2 | rfl | hc4
    · decide
    · decide
    · decide
    · decide
    · decide
    · exact isDecChar_not_ws (hr c hc2)
    · decide
    · exact hn c hc4
  have hcolon : ':' ∉ roomId := fun hmem => isDecChar_ne_colon (hr ':' hmem) rfl
  unfold extractRoomIdAndNonceFromComment
  rw [trimChars_eq_self hnws]
  show (match splitOnChar ':' (roomId ++ ':' :: nonce) with
    | [rid, nn] => if isHex64 nn then some (rid, nn) else none
    | _ => none) = _
  rw [splitOnChar_append_sep hcolon]
  by_cases hmem : ':' ∈ nonce
  · have hlen := two_le_splitOnChar_length hmem
    have hf : isHex64 nonce = false := by
      rcases hb : isHex64 nonce with _ | _
      · rfl
      · exact absurd hmem (isHex64_colon_not_mem hb)
    rcases hs : splitOnChar ':' nonce with _ | ⟨x, _ | ⟨y, ys⟩⟩
    · exact absurd hs (splitOnChar_ne_nil ':' nonce)
    · rw [hs] at hlen; simp at hlen
    · simp [hf]
  · rw [splitOnChar_no_sep hmem]

/-! ### findMaxBy lemmas -/

theorem foldl_pickMax_some {α : Type} (key : α → Nat) :
    ∀ (l : List α) (a : α), ∃ b,
      l.foldl (pickMax key) (some a) = some b ∧ (b = a ∨ b ∈ l) := by
  intro l
  induction l with
  | nil => intro a; exact ⟨a, rfl, Or.inl rfl⟩
  | cons x xs ih =>
    intro a
    simp only [List.foldl]
    by_cases hk : key a < key x
    · obtain ⟨b, hb, hmem⟩ := ih x
      refine ⟨b, ?_, ?_⟩
      · simpa [pickMax, hk] using hb
      · rcases hmem with rfl | hm
        · exact Or.inr (List.mem_cons_self _ _)
        · exact Or.inr (List.mem_cons_of_mem _ hm)
    · obtain ⟨b, hb, hmem⟩ := ih a
      refine ⟨b, ?_, ?_⟩
      · simpa [pickMax, hk] using hb
      · rcases hmem with rfl | hm
        · exact Or.inl rfl
        · exact Or.inr (List.mem_cons_of_mem _ hm)

theorem findMaxBy_eq_none_iff {α : Type} {l : List α} {p : α → Bool}
    {key : α → Nat} : findMaxBy l p key = none ↔ l.filter p = [] := by
  constructor
  · intro h
    rcases hf : l.filter p with _ | ⟨x, xs⟩
    · rfl
    · exfalso
      unfold findMaxBy at h
      rw [hf] at h
      simp only [List.foldl, pickMax] at h
      obtain ⟨b, hb, _⟩ := foldl_pickMax_some key xs x
      rw [hb] at h
      cases h
  · intro h
    unfold findMaxBy
    rw [h]
    rfl

theorem findMaxBy_mem {α : Type} {l : List α} {p : α → Bool} {key : α → Nat}
    {x : α} (h : findMaxBy l p key = some x) : x ∈ l ∧ p x = true := by
  have hx : x ∈ l.filter p := by
    unfold findMaxBy at h
    rcases hf : l.filter p with _ | ⟨y, ys⟩
    · rw [hf] at h; cases h
    · rw [hf] at h
      simp only [List.foldl, pickMax] at h
      obtain ⟨b, hb, hmem⟩ := foldl_pickMax_some key ys y
      rw [hb] at h
      cases h
      rcases hmem with rfl | hm
      · exact List.mem_cons_self _ _
      · exact List.mem_cons_of_mem _ hm
  exact ⟨(List.mem_filter.mp hx).1, (List.mem_filter.mp hx).2⟩

/-! ### Claim C10 -/

/-- C10: `validateDepositAmount(received, expected)` returns `true` exactly
when `|received − expected|` is at most the 0.001 TON tolerance; in
particular `validateDepositAmount(0.1005, 0.1) == true` and
`validateDepositAmount(0.102, 0.1) == false`.  (JS numbers are modelled as
exact rationals.) -/
theorem c10_validateDepositAmount :
    (∀ received expected : ℚ,
      validateDepositAmount received expected = true ↔
        |received - expected| ≤ 1 / 1000) ∧
    validateDepositAmount (1005 / 10000) (1 / 10) = true ∧
    validateDepositAmount (102 / 1000) (1 / 10) = false := by
  refine ⟨fun r e => ?_, by norm_num [validateDepositAmount, abs_le],
    by norm_num [validateDepositAmount, abs_le]⟩
  simp [validateDepositAmount]

/-- Witness for C10 at a concrete boundary input. -/
theorem c10_validateDepositAmount_witness :
    validateDepositAmount (1001 / 1000) 1 = true :=
  (c10_validateDepositAmount.1 (1001 / 1000) 1).mpr (by norm_num [abs_le])

/-! ### Claim C4 -/

/-- C4: `markIntentPaid` succeeds exactly when the intent exists with status
`CREATED`, in which case it flips it to `PAID` and stamps `paidAt`; in every
other case it throws and leaves the table unchanged, so `CREATED → PAID` is
the only transition it can perform. -/
theorem c4_markIntentPaid (db : List JoinIntentRow) (intentId txHash : Str)
    (now : Nat) :
    (∀ err : String, (markIntentPaid db intentId txHash now).2 = .error err →
      (markIntentPaid db intentId txHash now).1 = db) ∧
    ((∃ r, (markIntentPaid db intentId txHash now).2 = .ok r) ↔
      ∃ i, db.find? (fun j => decide (j.id = intentId)) = some i ∧
        i.status = IntentStatus.CREATED) ∧
    (∀ i, db.find? (fun j => decide (j.id = intentId)) = some i →
      i.status = IntentStatus.CREATED →
      (markIntentPaid db intentId txHash now).2 =
        .ok { i with status := IntentStatus.PAID, paidAt := some now } ∧
      (markIntentPaid db intentId txHash now).1 =
        db.map (fun j => if j.id = intentId then
          { i with status := IntentStatus.PAID, paidAt := some now } else j)) := by
  rcases hf : db.find? (fun j => decide (j.id = intentId)) with _ | i
  · refine ⟨fun err _ => by simp [markIntentPaid, hf], ?_, ?_⟩
    · constructor
      · rintro ⟨r, hr⟩
        simp [markIntentPaid, hf] at hr
      · rintro ⟨i, hi, _⟩
        rw [hf] at hi
        cases hi
    · intro i hi
      rw [hf] at hi
      cases hi
  · by_cases hs : i.status = IntentStatus.CREATED
    · refine ⟨?_, ?_, ?_⟩
      · intro err herr
        simp [markIntentPaid, hf, hs] at herr
      · exact ⟨fun _ => ⟨i, hf, hs⟩,
          fun _ => ⟨{ i with status := IntentStatus.PAID, paidAt := some now },
            by simp [markIntentPaid, hf, hs]⟩⟩
      · intro j hj hjs
        rw [hf] at hj
        injection hj with hij
        subst hij
        exact ⟨by simp [markIntentPaid, hf, hs], by simp [markIntentPaid, hf, hs]⟩
    · refine ⟨fun err _ => by simp [markIntentPaid, hf, hs], ?_, ?_⟩
      · constructor
        · rintro ⟨r, hr⟩
          simp [markIntentPaid, hf, hs] at hr
        · rintro ⟨j, hj, hjs⟩
          rw [hf] at hj
          injection hj with hij
          subst hij
          exact absurd hjs hs
      · intro j hj hjs
        rw [hf] at hj
        injection hj with hij
        subst hij
        exact absurd hjs hs

/-- Witness for C4: the sample `CREATED` intent is marked `PAID`. -/
theorem c4_markIntentPaid_witness :
    (markIntentPaid [sampleCreatedIntent] "i1".data "tx".data 5).2 =
      .ok { sampleCreatedIntent with
        status := IntentStatus.PAID, paidAt := some 5 } :=
  ((c4_markIntentPaid [sampleCreatedIntent] "i1".data "tx".data 5).2.2
    sampleCreatedIntent (by rfl) rfl).1

/-! ### Claim C5 -/

/-- C5 counterexample: with a single `PAID` intent for (p1, m1), the first
`createRefundForPlayer` call returns refund id `r1`, but the second call
returns `none` (the intent is now `REFUNDED`, so no `PAID` intent is found) —
not the same refund id both times as claimed. -/
theorem c5_counterexample :
    (createRefundForPlayer sampleRefundState [sampleWallet] "p1".data "m1".data
      RefundReason.player_left "r1".data 60).2 = .ok (some "r1".data) ∧
    (createRefundForPlayer
      (createRefundForPlayer sampleRefundState [sampleWallet] "p1".data
        "m1".data RefundReason.player_left "r1".data 60).1
      [sampleWallet] "p1".data "m1".data RefundReason.player_left "r2".data
      70).2 = .ok none :=
  ⟨rfl, rfl⟩

/-- C5 (amended): `createRefundForPlayer` never duplicates refunds: with no
`PAID` intent for (player, match) it returns `none` without touching state;
with an existing refund row for the located `PAID` intent it returns that
row's id without creating another; otherwise it creates exactly one refund
row for the full stake to the player's registered wallet address and flips
the intent `PAID → REFUNDED`.  Calling it twice (with a unique `PAID` intent
per (player, match)) creates exactly one refund row and performs the
transition exactly once, but the second call returns `none` — not the first
call's refund id. -/
theorem c5_createRefundForPlayer (st : RefundState) (wallets : List WalletRow)
    (playerId matchId : Str) (reason : RefundReason) (rid1 rid2 : Str)
    (now1 now2 : Nat) :
    (getIntentForMatch st.intents playerId matchId = none →
      createRefundForPlayer st wallets playerId matchId reason rid1 now1 =
        (st, .ok none)) ∧
    (∀ intent r, getIntentForMatch st.intents playerId matchId = some intent →
      st.refunds.find? (fun x => decide (x.joinIntentId = intent.id)) = some r →
      createRefundForPlayer st wallets playerId matchId reason rid1 now1 =
        (st, .ok (some r.id))) ∧
    (∀ intent w, getIntentForMatch st.intents playerId matchId = some intent →
      st.refunds.find? (fun x => decide (x.joinIntentId = intent.id)) = none →
      wallets.find? (fun x => decide (x.playerId = playerId)) = some w →
      (∀ j ∈ st.intents, j.playerId = playerId → j.roomId = some matchId →
        j.status = IntentStatus.PAID → j.id = intent.id) →
      createRefundForPlayer st wallets playerId matchId reason rid1 now1 =
        (⟨st.intents.map (fun j =>
            if j.id = intent.id then
              { j with status := IntentStatus.REFUNDED, refundedAt := some now1 }
            else j),
          st.refunds ++
            [⟨rid1, intent.id, intent.stake, w.address, "CREATED".data,
              reason⟩]⟩,
          .ok (some rid1)) ∧
      (createRefundForPlayer
        (createRefundForPlayer st wallets playerId matchId reason rid1 now1).1
        wallets playerId matchId reason rid2 now2).1 =
        (createRefundForPlayer st wallets playerId matchId reason rid1 now1).1 ∧
      (createRefundForPlayer
        (createRefundForPlayer st wallets playerId matchId reason rid1 now1).1
        wallets playerId matchId reason rid2 now2).2 = .ok none) := by
  refine ⟨?_, ?_, ?_⟩
  · intro hnone
    simp [createRefundForPlayer, hnone]
  · intro intent r hsome href
    simp [createRefundForPlayer, hsome, href]
  · intro intent w hsome href hw huniq
    have hfirst : createRefundForPlayer st wallets playerId matchId reason rid1
        now1 =
        (⟨st.intents.map (fun j =>
            if j.id = intent.id then
              { j with status := IntentStatus.REFUNDED, refundedAt := some now1 }
            else j),
          st.refunds ++
            [⟨rid1, intent.id, intent.stake, w.address, "CREATED".data,
              reason⟩]⟩,
          .ok (some rid1)) := by
      simp [createRefundForPlayer, hsome, href, hw]
    have hnone2 : getIntentForMatch
        (st.intents.map (fun j =>
          if j.id = intent.id then
            { j with status := IntentStatus.REFUNDED, refundedAt := some now1 }
          else j)) playerId matchId = none := by
      unfold getIntentForMatch
      rw [findMaxBy_eq_none_iff, List.filter_eq_nil]
      intro a ha
      obtain ⟨b, hb, rfl⟩ := List.mem_map.mp ha
      by_cases hbid : b.id = intent.id
      · simp [hbid]
      · simp only [if_neg hbid, decide_eq_true_eq]
        rintro ⟨h1, h2, h3⟩
        exact hbid (huniq b hb h1 h2 h3)
    refine ⟨hfirst, ?_, ?_⟩
    · rw [hfirst]
      simp [createRefundForPlayer, hnone2]
    · rw [hfirst]
      simp [createRefundForPlayer, hnone2]

/-- Witness for C5 (amended) at the sample state. -/
theorem c5_createRefundForPlayer_witness :
    createRefundForPlayer sampleRefundState [sampleWallet] "p1".data "m1".data
        RefundReason.player_left "r1".data 60 =
      (⟨[{ samplePaidIntent with
            status := IntentStatus.REFUNDED, refundedAt := some 60 }],
        [⟨"r1".data, samplePaidIntent.id, samplePaidIntent.stake,
          sampleWallet.address, "CREATED".data, RefundReason.player_left⟩]⟩,
        .ok (some "r1".data)) := by
  have h := (c5_createRefundForPlayer sampleRefundState [sampleWallet]
    "p1".data "m1".data RefundReason.player_left "r1".data "r2".data 60
    70).2.2 samplePaidIntent sampleWallet (by rfl) rfl (by rfl)
    (by
      intro j hj h1 h2 h3
      have : j = samplePaidIntent := by
        simpa [sampleRefundState] using hj
      rw [this])
  rw [h.1]
  rfl

/-- Every successful parse carries a 64-hex nonce (the regex guard). -/
theorem parse_nonce_hex {comment rid nn : Str}
    (h : extractRoomIdAndNonceFromComment comment = some (rid, nn)) :
    isHex64 nn = true := by
  unfold extractRoomIdAndNonceFromComment at h
  split at h
  · split at h
    · split at h
      · rename_i hx
        injection h with h2
        rw [Prod.mk.injEq] at h2
        rw [← h2.2]
        exact hx
      · cases h
    · cases h
  · cases h

/-! ### Claim C8 -/

/-- C8 counterexample: the nonce `aaa…a␣` (64 hex characters plus a trailing
space) has length 65 and contains a non-hex character, yet the comment built
from it parses successfully (the parser trims the comment first) instead of
returning `null` as claimed. -/
theorem c8_counterexample :
    (List.replicate 64 'a' ++ [' ']).length ≠ 64 ∧
    extractRoomIdAndNonceFromComment
      (mkJoinComment "1".data (List.replicate 64 'a' ++ [' '])) =
      some ("1".data, List.replicate 64 'a') := by
  exact ⟨by decide, rfl⟩

/-- C8 (amended): for every digit-string room id (as produced by
`roomIdToString`) and whitespace-free nonce, the comment
`join:<roomId>:<nonce>` parses back to the identical pair exactly when the
nonce is 64 hex characters, and parses to `null` otherwise; moreover every
successful parse of any comment yields a 64-hex nonce segment.  (Surrounding
whitespace is trimmed before parsing, so a nonce with leading or trailing
whitespace parses as its trimmed form rather than being rejected.) -/
theorem c8_comment_roundtrip (roomId nonce : Str)
    (hr : ∀ c ∈ roomId, isDecChar c = true)
    (hn : ∀ c ∈ nonce, Char.isWhitespace c = false) :
    (isHex64 nonce = true →
      extractRoomIdAndNonceFromComment (mkJoinComment roomId nonce) =
        some (roomId, nonce)) ∧
    (isHex64 nonce = false →
      extractRoomIdAndNonceFromComment (mkJoinComment roomId nonce) = none) ∧
    (∀ comment rid nn,
      extractRoomIdAndNonceFromComment comment = some (rid, nn) →
      isHex64 nn = true) := by
  refine ⟨?_, ?_, ?_⟩
  · intro hx
    rw [extract_mkJoinComment hr hn, if_pos hx]
  · intro hx
    rw [extract_mkJoinComment hr hn, if_neg (by rw [hx]; exact Bool.false_ne_true)]
  · intro comment rid nn h
    exact parse_nonce_hex h

/-- Witness for C8 on a concrete system-produced room id and 64-hex nonce. -/
theorem c8_comment_roundtrip_witness :
    extractRoomIdAndNonceFromComment
      (mkJoinComment (roomIdToString 115885390262228992)
        (List.replicate 64 'a')) =
      some (roomIdToString 115885390262228992, List.replicate 64 'a') := by
  have h := c8_comment_roundtrip (roomIdToString 115885390262228992)
    (List.replicate 64 'a') (roomIdToString_all_dec _)
    (by
      intro c hc
      rcases List.eq_of_mem_replicate hc with rfl
      decide)
  exact h.1 (by decide)

/-! ### Claim C1 -/

theorem truthyStr_eq_some {o : Option Str} {v : Str}
    (h : truthyStr o = some v) : o = some v ∧ v ≠ [] := by
  cases o with
  | none => cases h
  | some s =>
    cases s with
    | nil => cases h
    | cons c cs =>
      injection h with h2
      subst h2
      exact ⟨rfl, by simp⟩

theorem verifyEscrowDestination_true_iff (tx : TonTransaction)
    (escrowAddress : Str) :
    verifyEscrowDestination tx escrowAddress = true ↔
      (∃ d, truthyStr (tx.inMsg.bind TonInMsg.destinationAddress) = some d ∧
        d = escrowAddress) ∨
      (truthyStr (tx.inMsg.bind TonInMsg.destinationAddress) = none ∧
        ∃ a, truthyStr tx.accountAddress = some a ∧ a = escrowAddress) := by
  unfold verifyEscrowDestination
  rcases hd : truthyStr (tx.inMsg.bind TonInMsg.destinationAddress) with _ | d
  · rcases ha : truthyStr tx.accountAddress with _ | a
    · simp
    · simp [decide_eq_true_eq]
  · simp [decide_eq_true_eq]

theorem jsMapGet_buildNonceMap {db : List JoinIntentRow} {now : Nat}
    {nonce : Str} {intentData : IntentRef}
    (h : jsMapGet (buildNonceMap db now) nonce = some intentData) :
    ∃ intent, intent ∈ db ∧ intent.status = IntentStatus.CREATED ∧
      now < intent.expiresAt ∧ intent.nonce = nonce ∧
      intentData = ⟨intent.id, intent.onChainRoomId⟩ := by
  unfold jsMapGet at h
  rcases hf : (buildNonceMap db now).reverse.find?
      (fun e => decide (e.1 = nonce)) with _ | e
  · rw [hf] at h; cases h
  · rw [hf] at h
    injection h with h2
    have hmem : e ∈ (buildNonceMap db now).reverse := List.mem_of_find?_eq_some hf
    have hpred :=
      List.find?_some (p := fun (x : Str × IntentRef) => decide (x.1 = nonce)) hf
    have hmem2 : e ∈ buildNonceMap db now := List.mem_reverse.mp hmem
    unfold buildNonceMap at hmem2
    obtain ⟨i, hi, he⟩ := List.mem_map.mp hmem2
    have hif := List.mem_filter.mp hi
    have hact : i.status = IntentStatus.CREATED ∧ now < i.expiresAt := by
      have := hif.2
      simpa using this
    refine ⟨i, hif.1, hact.1, hact.2, ?_, ?_⟩
    · have : e.1 = nonce := by simpa using hpred
      rw [← this, ← he]
    · rw [← h2, ← he]

/-- C1: a transaction enters the `matches` list of
`checkIncomingTransactions` only if its comment parses as
`join:<roomId>:<nonce>` with a 64-hex nonce, the nonce belongs to a
`CREATED` unexpired intent, the parsed room id equals that intent's stored
`onChainRoomId` exactly, the destination (from `inMsg.destination.address`,
falling back to `account.address`, rejected when neither is present) equals
the escrow address exactly, and the amount comes solely from `inMsg.value`;
each failing transaction is dropped individually without affecting the rest
of the batch. -/
theorem c1_checkIncomingTransactions (db : List JoinIntentRow) (now : Nat)
    (escrowAddress : Str) (sinceLt : Option Nat) :
    (∀ tx m, processTx (buildNonceMap db now) escrowAddress sinceLt tx = some m →
      ∃ comment roomId nonce intent,
        extractComment tx = some comment ∧
        extractRoomIdAndNonceFromComment comment = some (roomId, nonce) ∧
        isHex64 nonce = true ∧
        intent ∈ db ∧ intent.status = IntentStatus.CREATED ∧
        now < intent.expiresAt ∧ intent.nonce = nonce ∧
        intent.onChainRoomId = some roomId ∧
        m.intentId = intent.id ∧ m.nonce = nonce ∧ m.txHash = tx.hash ∧
        verifyEscrowDestination tx escrowAddress = true ∧
        ((∃ d, truthyStr (tx.inMsg.bind TonInMsg.destinationAddress) = some d ∧
            d = escrowAddress) ∨
          (truthyStr (tx.inMsg.bind TonInMsg.destinationAddress) = none ∧
            ∃ a, truthyStr tx.accountAddress = some a ∧ a = escrowAddress)) ∧
        (∃ im v, tx.inMsg = some im ∧ im.value = some v ∧ v ≠ [] ∧
          m.amount = v)) ∧
    (∀ l₁ tx l₂,
      checkIncomingMatches db now escrowAddress sinceLt (l₁ ++ tx :: l₂) =
        checkIncomingMatches db now escrowAddress sinceLt l₁ ++
          (processTx (buildNonceMap db now) escrowAddress sinceLt tx).toList ++
          checkIncomingMatches db now escrowAddress sinceLt l₂) := by
  constructor
  · intro tx m h
    unfold processTx at h
    split at h
    · cases h
    · split at h
      · cases h
      · rename_i comment hcomment
        split at h
        · cases h
        · rename_i roomId nonce hparse
          split at h
          · cases h
          · rename_i intentData hget
            split at h
            · cases h
            · rename_i rid hrid
              split at h
              · rename_i hrideq
                split at h
                · rename_i hdest2
                  split at h
                  · cases h
                  · rename_i amount hamount
                    split at h
                    · cases h
                    · rename_i hfrom
                      injection h with h2
                      obtain ⟨intent, hidb, hstat, hexp, hnonce, hdata⟩ :=
                        jsMapGet_buildNonceMap hget
                      have hhex : isHex64 nonce = true := parse_nonce_hex hparse
                      have hridv := truthyStr_eq_some hrid
                      have hamt := truthyStr_eq_some hamount
                      obtain ⟨him, himv⟩ := Option.bind_eq_some.mp hamt.1
                      refine ⟨comment, roomId, nonce, intent, hcomment, hparse,
                        hhex, hidb, hstat, hexp, hnonce, ?_, ?_, ?_, ?_, hdest2,
                        (verifyEscrowDestination_true_iff tx escrowAddress).mp
                          hdest2, him, amount, himv.1, himv.2, hamt.2, ?_⟩
                      · have hoc : intentData.onChainRoomId = some rid := hridv.1
                        rw [hdata] at hoc
                        rw [hrideq] at hoc
                        exact hoc
                      · rw [← h2]
                        show intentData.intentId = intent.id
                        rw [hdata]
                      · rw [← h2]
                      · rw [← h2]
                      · rw [← h2]
                · cases h
              · cases h
  · intro l₁ tx l₂
    unfold checkIncomingMatches
    rw [List.filterMap_append]
    rcases hp : processTx (buildNonceMap db now) escrowAddress sinceLt tx with _ | mm
    · simp [List.filterMap_cons, hp]
    · simp [List.filterMap_cons, hp]

/-- Witness for C1: the sample transaction matches the sample intent, and the
theorem's consequences hold at it. -/
theorem c1_checkIncomingTransactions_witness :
    ∃ comment roomId nonce intent,
      extractComment sampleTx = some comment ∧
      extractRoomIdAndNonceFromComment comment = some (roomId, nonce) ∧
      isHex64 nonce = true ∧
      intent ∈ [sampleCreatedIntent] ∧ intent.status = IntentStatus.CREATED ∧
      (500 : Nat) < intent.expiresAt ∧ intent.nonce = nonce ∧
      intent.onChainRoomId = some roomId ∧
      (⟨"i1".data, List.replicate 64 'a', "h1".data, "src".data,
        "100000000".data, 99⟩ : TransactionMatch).intentId = intent.id ∧
      (⟨"i1".data, List.replicate 64 'a', "h1".data, "src".data,
        "100000000".data, 99⟩ : TransactionMatch).nonce = nonce ∧
      (⟨"i1".data, List.replicate 64 'a', "h1".data, "src".data,
        "100000000".data, 99⟩ : TransactionMatch).txHash = sampleTx.hash ∧
      verifyEscrowDestination sampleTx "esc".data = true ∧
      ((∃ d, truthyStr (sampleTx.inMsg.bind TonInMsg.destinationAddress) =
          some d ∧ d = "esc".data) ∨
        (truthyStr (sampleTx.inMsg.bind TonInMsg.destinationAddress) = none ∧
          ∃ a, truthyStr sampleTx.accountAddress = some a ∧ a = "esc".data)) ∧
      (∃ im v, sampleTx.inMsg = some im ∧ im.value = some v ∧ v ≠ [] ∧
        (⟨"i1".data, List.replicate 64 'a', "h1".data, "src".data,
          "100000000".data, 99⟩ : TransactionMatch).amount = v) :=
  (c1_checkIncomingTransactions [sampleCreatedIntent] 500 "esc".data none).1
    sampleTx
    ⟨"i1".data, List.replicate 64 'a', "h1".data, "src".data,
      "100000000".data, 99⟩ rfl

/-! ### Claim C6 -/

theorem natToDecGo_ne_nil :
    ∀ (fuel n : Nat) (acc : Str), natToDecGo (fuel + 1) n acc ≠ [] := by
  intro fuel
  induction fuel with
  | zero =>
    intro n acc
    simp only [natToDecGo]
    by_cases h : n < 10 <;> simp [h, natToDecGo]
  | succ f ih =>
    intro n acc
    simp only [natToDecGo]
    by_cases h : n < 10
    · simp [h]
    · simp only [h, if_false]
      exact ih (n / 10) _

theorem roomIdToString_ne_nil (n : Nat) : roomIdToString n ≠ [] :=
  natToDecGo_ne_nil n n []

theorem truthyStr_some_of_ne_nil {s : Str} (h : s ≠ []) :
    truthyStr (some s) = some s := by
  cases s with
  | nil => exact absurd rfl h
  | cons c cs => rfl

/-- C6: `createJoinIntent` (room-binding variant) is idempotent per
(player, roomType): when an unexpired `CREATED` intent exists, it is returned
as-is (same id, nonce, payment parameters) and the table is unchanged; only
when none exists is a single new row appended, carrying the fresh nonce, a
five-minute expiry, the bound match id, and the `onChainRoomId` derived from
the match id. -/
theorem c6_createJoinIntent_idempotent (cfg : JIConfig)
    (presets : List RoomPreset) (wallets : List WalletRow)
    (db : List JoinIntentRow) (playerId : Str) (rt : RoomType)
    (mmatchId newIntentId nonce : Str) (now : Nat) (wallet : WalletRow)
    (preset : RoomPreset)
    (hw : wallets.find? (fun x => decide (x.playerId = playerId)) = some wallet)
    (hp : findPreset presets rt = some preset) :
    (∀ e pp, findExistingActiveIntent db playerId rt now = some e →
      getPaymentParams cfg e = .ok pp →
      createJoinIntent cfg presets wallets db playerId rt mmatchId newIntentId
        nonce now = (db, .ok (e, pp))) ∧
    (∀ rid esc, findExistingActiveIntent db playerId rt now = none →
      matchIdToRoomId mmatchId = .ok rid →
      cfg.escrowAddress = some esc →
      createJoinIntent cfg presets wallets db playerId rt mmatchId newIntentId
        nonce now =
        (db ++ [freshIntentRow newIntentId mmatchId rid playerId wallet.id rt
            preset.entryFee nonce now],
          .ok (freshIntentRow newIntentId mmatchId rid playerId wallet.id rt
              preset.entryFee nonce now,
            ⟨esc, Int.floor (preset.entryFee * 1000000000) +
              Int.floor (cfg.gasReserveTon * 1000000000),
              mkJoinComment (roomIdToString rid) nonce⟩))) := by
  constructor
  · intro e pp he hpp
    simp [createJoinIntent, hw, hp, he, hpp]
  · intro rid esc hnone hrid hesc
    have htr : truthyStr (some (roomIdToString rid)) =
        some (roomIdToString rid) :=
      truthyStr_some_of_ne_nil (roomIdToString_ne_nil rid)
    simp [createJoinIntent, hw, hp, hnone, hrid, getPaymentParams, hesc, htr,
      freshIntentRow]

/-- Witness for C6: fresh creation against an empty intents table. -/
theorem c6_createJoinIntent_witness :
    createJoinIntent ⟨some "esc".data, 1 / 20⟩ defaultPresets [sampleWallet]
      [] "p1".data RoomType.ton "match_1768688464413_60rnyirpq".data
      "i9".data (List.replicate 64 'c') 100 =
      ([freshIntentRow "i9".data "match_1768688464413_60rnyirpq".data
          115912767203801246 "p1".data sampleWallet.id RoomType.ton (1 / 10)
          (List.replicate 64 'c') 100],
        .ok (freshIntentRow "i9".data "match_1768688464413_60rnyirpq".data
            115912767203801246 "p1".data sampleWallet.id RoomType.ton (1 / 10)
            (List.replicate 64 'c') 100,
          ⟨"esc".data, Int.floor ((1 : Rat) / 10 * 1000000000) +
            Int.floor ((1 : Rat) / 20 * 1000000000),
            mkJoinComment (roomIdToString 115912767203801246)
              (List.replicate 64 'c')⟩)) := by
  have h := (c6_createJoinIntent_idempotent ⟨some "esc".data, 1 / 20⟩
    defaultPresets [sampleWallet] [] "p1".data RoomType.ton
    "match_1768688464413_60rnyirpq".data "i9".data (List.replicate 64 'c')
    100 sampleWallet ⟨"ton_0_1".data, RoomType.ton, 1 / 10, 2, 3, 10⟩
    rfl rfl).2 115912767203801246 "esc".data rfl (by rfl) rfl
  exact h


/-! ### Claim C3 -/

theorem mem_insertByDelta {endTime : Nat} {x a : Player} {l : List Player} :
    a ∈ insertByDelta endTime x l ↔ a = x ∨ a ∈ l := by
  induction l with
  | nil => simp [insertByDelta]
  | cons q rest ih =>
    by_cases hq : pressDelta endTime q < pressDelta endTime x <;>
      simp [insertByDelta, hq, ih] <;> tauto

theorem mem_sortByDelta {endTime : Nat} {a : Player} :
    ∀ {l : List Player}, a ∈ sortByDelta endTime l ↔ a ∈ l := by
  intro l
  induction l with
  | nil => simp [sortByDelta]
  | cons p rest ih =>
    simp [sortByDelta, mem_insertByDelta, ih]

theorem length_insertByDelta {endTime : Nat} {x : Player} :
    ∀ {l : List Player},
      (insertByDelta endTime x l).length = l.length + 1 := by
  intro l
  induction l with
  | nil => rfl
  | cons q rest ih =>
    by_cases hq : pressDelta endTime q < pressDelta endTime x <;>
      simp [insertByDelta, hq, ih]

theorem length_sortByDelta {endTime : Nat} :
    ∀ {l : List Player}, (sortByDelta endTime l).length = l.length := by
  intro l
  induction l with
  | nil => rfl
  | cons p rest ih => simp [sortByDelta, length_insertByDelta, ih]

theorem pairwise_insertByDelta {endTime : Nat} {x : Player} {l : List Player}
    (h : l.Pairwise (fun a b => pressDelta endTime a ≤ pressDelta endTime b)) :
    (insertByDelta endTime x l).Pairwise
      (fun a b => pressDelta endTime a ≤ pressDelta endTime b) := by
  induction l with
  | nil => simp [insertByDelta]
  | cons q rest ih =>
    rw [List.pairwise_cons] at h
    by_cases hq : pressDelta endTime q < pressDelta endTime x
    · simp only [insertByDelta, if_pos hq]
      rw [List.pairwise_cons]
      constructor
      · intro b hb
        rcases mem_insertByDelta.mp hb with rfl | hbr
        · exact le_of_lt hq
        · exact h.1 b hbr
      · exact ih h.2
    · simp only [insertByDelta, if_neg hq]
      rw [List.pairwise_cons]
      constructor
      · intro b hb
        rcases List.mem_cons.mp hb with rfl | hbr
        · exact le_of_not_lt hq
        · exact le_trans (le_of_not_lt hq) (h.1 b hbr)
      · exact List.pairwise_cons.mpr h

theorem sortValid_pairwise (players : List Player) (endTime : Nat) :
    (sortValid players endTime).Pairwise
      (fun a b => pressDelta endTime a ≤ pressDelta endTime b) := by
  unfold sortValid
  generalize players.filter (isValidPress endTime) = l
  induction l with
  | nil => simp [sortByDelta]
  | cons p rest ih => exact pairwise_insertByDelta ih

theorem mem_sortValid {players : List Player} {endTime : Nat} {p : Player} :
    p ∈ sortValid players endTime ↔
      p ∈ players ∧ isValidPress endTime p = true := by
  unfold sortValid
  rw [mem_sortByDelta, List.mem_filter]

theorem find?_id_of_nodup {players : List Player} {p : Player}
    (hnd : (players.map Player.id).Nodup) (hp : p ∈ players) :
    players.find? (fun q => decide (q.id = p.id)) = some p := by
  induction players with
  | nil => cases hp
  | cons h t ih =>
    rw [List.map_cons, List.nodup_cons] at hnd
    rcases List.mem_cons.mp hp with rfl | hpt
    · simp [List.find?_cons]
    · by_cases hh : h.id = p.id
      · exact absurd (hh ▸ List.mem_map_of_mem Player.id hpt) hnd.1
      · have hph : (decide (h.id = p.id)) = false := by simp [hh]
        rw [List.find?_cons, hph]
        exact ih hnd.2 hpt

/-- Under distinct player ids, the final re-map of `calculateRoundScores` is
the identity, so the result is exactly the ranked valid players followed by
the zero-scored invalid players. -/
theorem calculateRoundScores_eq {players : List Player} {endTime : Nat}
    (hnd : (players.map Player.id).Nodup) :
    calculateRoundScores players endTime =
      scoredPlayers players endTime ++ invalidPlayers players endTime := by
  unfold calculateRoundScores
  have hcong : ∀ q ∈ scoredPlayers players endTime ++
      invalidPlayers players endTime,
      (match players.find? (fun x => decide (x.id = q.id)) with
        | some existingPlayer =>
          { existingPlayer with
              score := q.score, position := q.position,
              pressTime := q.pressTime }
        | none => q) = q := by
    intro q hq
    rcases List.mem_append.mp hq with hq1 | hq2
    · unfold scoredPlayers at hq1
      obtain ⟨e, he, rfl⟩ := List.mem_map.mp hq1
      have he2 : e.2 ∈ sortValid players endTime := by
        have := List.enum_eq_zip_range (sortValid players endTime) ▸ he
        exact (List.of_mem_zip this).2
      have hpmem := (mem_sortValid.mp he2).1
      have hfind : players.find?
          (fun x => decide (x.id = e.2.id)) = some e.2 :=
        find?_id_of_nodup hnd hpmem
      simp only [hfind]
    · unfold invalidPlayers at hq2
      obtain ⟨p, hpm, rfl⟩ := List.mem_map.mp hq2
      have hpmem := (List.mem_filter.mp hpm).1
      have hfind : players.find? (fun x => decide (x.id = p.id)) = some p :=
        find?_id_of_nodup hnd hpmem
      simp only [hfind]
  calc (scoredPlayers players endTime ++ invalidPlayers players endTime).map _
      = (scoredPlayers players endTime ++ invalidPlayers players endTime).map
        id := List.map_congr_left hcong
    _ = _ := List.map_id _

theorem scoredPlayers_length (players : List Player) (endTime : Nat) :
    (scoredPlayers players endTime).length =
      (sortValid players endTime).length := by
  unfold scoredPlayers
  simp [List.enum_eq_zip_range]

theorem scoredPlayers_get (players : List Player) (endTime : Nat) (k : Nat)
    (hk : k < (sortValid players endTime).length) :
    (scoredPlayers players endTime).get
        ⟨k, lt_of_lt_of_eq hk (scoredPlayers_length players endTime).symm⟩ =
      { (sortValid players endTime).get ⟨k, hk⟩ with
          score := rankScore (k + 1), position := some (k + 1) } := by
  unfold scoredPlayers
  simp [List.get_eq_getElem, List.getElem_map, List.getElem_enum]

/-- C3 counterexample: a press recorded at elapsed time 0 ms satisfies
`pressTime ≤ roundEndTime`, so per the claim it is valid and must rank
(scoring at least 1, here 9 as the only press); the code's JS truthiness
filter (`!player.pressTime`) treats it as no press and scores it 0. -/
theorem c3_counterexample :
    samplePlayerZero.pressTime = some 0 ∧ (0 : Nat) ≤ 10000 ∧
    calculateRoundScores [samplePlayerZero] 10000 =
      [{ samplePlayerZero with score := 0, position := none }] :=
  ⟨rfl, by decide, rfl⟩

/-- C3 (amended): a press is valid iff `0 < pressTime ≤ roundEndTime` (a
`pressTime` of exactly 0 ms is treated as missing by the JS truthiness
check); valid presses are ranked ascending by `roundEndTime − pressTime`,
the rank-k player scores `max(1, 10−k)`, invalid or missing presses score 0,
`endRound` adds each player's round score to their cumulative score, and the
cited 3-player example scores 9 / 8 / 0. -/
theorem c3_round_scoring (players : List Player) (endTime : Nat)
    (hnd : (players.map Player.id).Nodup) :
    calculateRoundScores players endTime =
      scoredPlayers players endTime ++ invalidPlayers players endTime ∧
    (∀ p : Player, isValidPress endTime p = true ↔
      ∃ t, p.pressTime = some t ∧ t ≠ 0 ∧ t ≤ endTime) ∧
    (∀ p, p ∈ sortValid players endTime ↔
      p ∈ players ∧ isValidPress endTime p = true) ∧
    (sortValid players endTime).Pairwise
      (fun a b => pressDelta endTime a ≤ pressDelta endTime b) ∧
    (∀ k (hk : k < (sortValid players endTime).length),
      (scoredPlayers players endTime).get
          ⟨k, lt_of_lt_of_eq hk (scoredPlayers_length players endTime).symm⟩ =
        { (sortValid players endTime).get ⟨k, hk⟩ with
            score := max 1 (10 - (k + 1)), position := some (k + 1) }) ∧
    (∀ p ∈ players, isValidPress endTime p = false →
      { p with score := 0, position := none } ∈
        calculateRoundScores players endTime) ∧
    (∀ (presets : List RoomPreset) (m : Match) (now : Nat)
        (m2 : Match) (rr : RoundResult),
      endRound presets m now = .ok (m2, rr) →
      m2.players = m.players.map (fun p =>
        match (calculateRoundScores m.players
            (m.roundEndTime.getD 0)).find?
            (fun q => decide (q.id = p.id)) with
        | some roundPlayer =>
          { p with
              score := p.score + roundPlayer.score
              pressTime := roundPlayer.pressTime
              position := roundPlayer.position }
        | none => p)) ∧
    (calculateRoundScores [samplePlayerA, samplePlayerB, samplePlayerC]
        10000).map (fun p => (p.id, p.score)) =
      [("a".data, 9), ("b".data, 8), ("c".data, 0)] := by
  refine ⟨calculateRoundScores_eq hnd, ?_, fun p => mem_sortValid,
    sortValid_pairwise players endTime, scoredPlayers_get players endTime,
    ?_, ?_, by decide⟩
  · intro p
    unfold isValidPress
    cases hp : p.pressTime with
    | none => simp
    | some t => simp
  · intro p hp hinv
    rw [calculateRoundScores_eq hnd]
    refine List.mem_append.mpr (Or.inr ?_)
    unfold invalidPlayers
    refine List.mem_map.mpr ⟨p, ?_, rfl⟩
    rw [List.mem_filter]
    exact ⟨hp, by simp [hinv]⟩
  · intro presets m now m2 rr hrun
    unfold endRound at hrun
    split at hrun
    · injection hrun with h2
      rw [Prod.mk.injEq] at h2
      rw [← h2.1]
      split
      · split
        · rfl
        · rfl
      · rfl
    · cases hrun

/-- Witness for C3 (amended) at the three-player scoring example. -/
theorem c3_round_scoring_witness :
    (calculateRoundScores [samplePlayerA, samplePlayerB, samplePlayerC]
        10000).map (fun p => (p.id, p.score)) =
      [("a".data, 9), ("b".data, 8), ("c".data, 0)] := by
  obtain ⟨-, -, -, -, -, -, -, hex⟩ :=
    c3_round_scoring [samplePlayerA, samplePlayerB, samplePlayerC] 10000
      (by decide)
  exact hex

/-! ### Association-map lemmas -/

theorem assocGet_mem {β : Type} {l : List (Str × β)} {k : Str} {v : β}
    (h : assocGet l k = some v) : (k, v) ∈ l := by
  unfold assocGet at h
  rcases hf : l.find? (fun e => decide (e.1 = k)) with _ | e
  · rw [hf] at h; cases h
  · rw [hf] at h
    injection h with h2
    have hmem := List.mem_of_find?_eq_some hf
    have hpred := List.find?_some (p := fun (e : Str × β) => decide (e.1 = k)) hf
    simp only [decide_eq_true_eq] at hpred
    rcases e with ⟨ek, ev⟩
    cases hpred
    cases h2
    exact hmem

theorem mem_assocSet {β : Type} {l : List (Str × β)} {k : Str} {v : β}
    {e : Str × β} (h : e ∈ assocSet l k v) : e = (k, v) ∨ e ∈ l := by
  unfold assocSet at h
  split at h
  · obtain ⟨x, hx, hxe⟩ := List.mem_map.mp h
    by_cases hxk : x.1 = k
    · left
      rw [← hxe]
      simp [hxk]
    · right
      rw [← hxe]
      simp only [if_neg hxk]
      exact hx
  · rcases List.mem_append.mp h with h1 | h2
    · right; exact h1
    · left; simpa using h2

theorem keys_assocSet_of_any {β : Type} {l : List (Str × β)} {k : Str}
    (v : β) (hany : l.any (fun e => decide (e.1 = k)) = true) :
    (assocSet l k v).map Prod.fst = l.map Prod.fst := by
  unfold assocSet
  rw [if_pos hany, List.map_map]
  refine List.map_congr_left ?_
  intro e _
  by_cases hek : e.1 = k
  · simp [hek]
  · simp [hek]

theorem keys_assocSet_of_not_any {β : Type} {l : List (Str × β)} {k : Str}
    (v : β) (hany : ¬ l.any (fun e => decide (e.1 = k)) = true) :
    (assocSet l k v).map Prod.fst = l.map Prod.fst ++ [k] := by
  unfold assocSet
  rw [if_neg hany, List.map_append]
  rfl

theorem nodupKeys_assocSet {β : Type} {l : List (Str × β)} {k : Str} {v : β}
    (h : (l.map Prod.fst).Nodup) :
    ((assocSet l k v).map Prod.fst).Nodup := by
  by_cases hany : l.any (fun e => decide (e.1 = k)) = true
  · rw [keys_assocSet_of_any v hany]
    exact h
  · rw [keys_assocSet_of_not_any v hany]
    rw [List.nodup_append]
    refine ⟨h, List.nodup_singleton k, ?_⟩
    intro a ha hb
    rcases List.mem_singleton.mp hb with rfl
    rw [List.any_eq_true] at hany
    obtain ⟨e, he, hek⟩ := List.mem_map.mp ha
    exact hany ⟨e, he, by simp [hek]⟩

theorem find?_map_keyed {β : Type} {l : List (Str × β)} {k : Str} (v : β)
    (hany : l.any (fun e => decide (e.1 = k)) = true) :
    (l.map (fun e => if e.1 = k then (k, v) else e)).find?
      (fun e => decide (e.1 = k)) = some (k, v) := by
  induction l with
  | nil => cases hany
  | cons e es ih =>
    by_cases hek : e.1 = k
    · simp only [List.map_cons, if_pos hek]
      exact List.find?_cons_of_pos _ (by simp)
    · simp only [List.map_cons, if_neg hek]
      rw [List.find?_cons_of_neg _ (by simp [hek])]
      refine ih ?_
      have := List.any_eq_true.mp hany
      obtain ⟨x, hx, hxk⟩ := this
      rcases List.mem_cons.mp hx with rfl | hxs
      · simp [hek] at hxk
      · exact List.any_eq_true.mpr ⟨x, hxs, hxk⟩

theorem assocGet_assocSet_self {β : Type} (l : List (Str × β)) (k : Str)
    (v : β) : assocGet (assocSet l k v) k = some v := by
  unfold assocGet assocSet
  by_cases hany : l.any (fun e => decide (e.1 = k)) = true
  · rw [if_pos hany, find?_map_keyed v hany]
    rfl
  · rw [if_neg hany, List.find?_append]
    have hnone : l.find? (fun e => decide (e.1 = k)) = none := by
      rw [List.find?_eq_none]
      intro x hx hpx
      exact hany (List.any_eq_true.mpr ⟨x, hx, hpx⟩)
    rw [hnone]
    simp [List.find?_cons_of_pos]

theorem nodup_keys_unique {β : Type} {l : List (Str × β)}
    (hnd : (l.map Prod.fst).Nodup) {k : Str} {v1 v2 : β}
    (h1 : (k, v1) ∈ l) (h2 : (k, v2) ∈ l) : v1 = v2 := by
  induction l with
  | nil => cases h1
  | cons e es ih =>
    rw [List.map_cons, List.nodup_cons] at hnd
    rcases List.mem_cons.mp h1 with rfl | h1s
    · rcases List.mem_cons.mp h2 with he | h2s
      · cases he; rfl
      · exact absurd (List.mem_map_of_mem Prod.fst h2s) hnd.1
    · rcases List.mem_cons.mp h2 with rfl | h2s
      · exact absurd (List.mem_map_of_mem Prod.fst h1s) hnd.1
      · exact ih hnd.2 h1s h2s

theorem assocGet_of_mem {β : Type} {l : List (Str × β)}
    (hnd : (l.map Prod.fst).Nodup) {k : Str} {v : β} (hm : (k, v) ∈ l) :
    assocGet l k = some v := by
  rcases hg : assocGet l k with _ | v2
  · exfalso
    unfold assocGet at hg
    rcases hf : l.find? (fun e => decide (e.1 = k)) with _ | e
    · exact absurd (by simp : decide ((k, v).1 = k) = true)
        (List.find?_eq_none.mp hf (k, v) hm)
    · rw [hf] at hg; cases hg
  · rw [nodup_keys_unique hnd hm (assocGet_mem hg)]

/-! ### Table-invariant machinery -/

theorem setP2M_activeMatches (st : MMState) (a b : Str) :
    (setP2M st a b).activeMatches = st.activeMatches := rfl

theorem foldl_setP2M_activeMatches (mid : Str) :
    ∀ (l : List Player) (st : MMState),
      (l.foldl (fun s p => setP2M s p.id mid) st).activeMatches =
        st.activeMatches := by
  intro l
  induction l with
  | nil => intro st; rfl
  | cons p rest ih =>
    intro st
    rw [List.foldl_cons, ih]
    rfl

theorem tableInv_activeMatches_eq {presets : List RoomPreset}
    {st st2 : MMState} (h : TableInv presets st)
    (he : st2.activeMatches = st.activeMatches) : TableInv presets st2 := by
  obtain ⟨⟨h1, h2⟩, h3⟩ := h
  refine ⟨⟨?_, ?_⟩, ?_⟩
  · rw [he]; exact h1
  · intro mid am hm
    exact h2 mid am (he ▸ hm)
  · intro mid am hm
    exact h3 mid am (he ▸ hm)

theorem tableInv_mmSet {presets : List RoomPreset} {st : MMState} {k : Str}
    {am : ActiveMatch} (h : TableInv presets st)
    (hid : am.matchData.id = k) (hcap : CapOK presets am.matchData)
    (hround : RoundOK presets am.matchData) :
    TableInv presets (mmSet st k am) := by
  obtain ⟨⟨h1, h2⟩, h3⟩ := h
  refine ⟨⟨nodupKeys_assocSet h1, ?_⟩, ?_⟩
  · intro mid am2 hm
    rcases mem_assocSet hm with he | hold
    · rw [Prod.mk.injEq] at he
      rw [he.2, he.1]
      exact hid
    · exact h2 mid am2 hold
  · intro mid am2 hm
    rcases mem_assocSet hm with he | hold
    · rw [Prod.mk.injEq] at he
      rw [he.2]
      exact ⟨hcap, hround⟩
    · exact h3 mid am2 hold

theorem findPreset_mem {presets : List RoomPreset} {rt : RoomType}
    {preset : RoomPreset} (h : findPreset presets rt = some preset) :
    preset ∈ presets ∧ preset.type = rt := by
  unfold findPreset at h
  refine ⟨List.mem_of_find?_eq_some h, ?_⟩
  have := List.find?_some (p := fun (q : RoomPreset) => decide (q.type = rt)) h
  simpa using this

theorem roundOK_newWaitingMatch (presets : List RoomPreset) (rt : RoomType)
    (player : Player) (newId : Str) (now : Nat) :
    RoundOK presets (newWaitingMatch rt player newId now) := by
  refine ⟨?_, ?_, ?_⟩
  · rintro ⟨⟨s, hs, -⟩, -⟩ p _
    cases hs
  · intro hfin
    cases hfin
  · intro _
    exact ⟨rfl, rfl⟩

theorem capOK_newWaitingMatch {presets : List RoomPreset} {rt : RoomType}
    {preset : RoomPreset} (hok : PresetsOK presets)
    (hp : findPreset presets rt = some preset) (player : Player)
    (newId : Str) (now : Nat) :
    CapOK presets (newWaitingMatch rt player newId now) := by
  intro q hq
  have hqp : q = preset := by
    unfold newWaitingMatch at hq
    rw [hp] at hq
    injection hq with h
    exact h.symm
  subst hqp
  exact hok q (findPreset_mem hp).1

theorem joinPhase_eq_some {st : MMState} {preset : RoomPreset}
    {cand : Option ActiveMatch} {wm : ActiveMatch} (rt : RoomType)
    (player : Player) (newId : Str) (now : Nat)
    (h : revalidateCand st preset cand = some wm) :
    joinPhase st preset rt player cand newId now =
      joinExisting st preset rt player newId now wm := by
  unfold joinPhase
  rw [h]

theorem joinPhase_eq_none {st : MMState} {preset : RoomPreset}
    {cand : Option ActiveMatch} (rt : RoomType) (player : Player)
    (newId : Str) (now : Nat) (h : revalidateCand st preset cand = none) :
    joinPhase st preset rt player cand newId now =
      joinNew st rt player newId now := by
  unfold joinPhase
  rw [h]

/-- The re-validation result is `none`, the stale candidate itself (only when
its cached roster is already full), or the live table entry under the
candidate's id, still waiting and below capacity. -/
theorem revalidateCand_cases (st : MMState) (preset : RoomPreset)
    (c : ActiveMatch) :
    revalidateCand st preset (some c) = none ∨
    (¬ c.matchData.players.length < preset.maxPlayers ∧
      revalidateCand st preset (some c) = some c) ∨
    (∃ still, mmGet st c.matchData.id = some still ∧
      still.matchData.status = MatchStatus.waiting ∧
      still.matchData.players.length < preset.maxPlayers ∧
      revalidateCand st preset (some c) = some still) := by
  by_cases h1 : c.matchData.players.length < preset.maxPlayers
  · rcases hget : mmGet st c.matchData.id with _ | still
    · left
      simp only [revalidateCand]
      rw [if_pos h1, hget]
    · by_cases h2 : still.matchData.status ≠ MatchStatus.waiting ∨
          preset.maxPlayers ≤ still.matchData.players.length
      · left
        simp only [revalidateCand]
        rw [if_pos h1, hget]
        show (if still.matchData.status ≠ MatchStatus.waiting ∨
            preset.maxPlayers ≤ still.matchData.players.length then none
          else some still) = none
        rw [if_pos h2]
      · right; right
        push_neg at h2
        refine ⟨still, ?_, ?_, ?_, ?_⟩
        · rfl
        · exact h2.1
        · exact h2.2
        simp only [revalidateCand]
        rw [if_pos h1, hget]
        show (if still.matchData.status ≠ MatchStatus.waiting ∨
            preset.maxPlayers ≤ still.matchData.players.length then none
          else some still) = some still
        rw [if_neg (by push_neg; exact h2)]
  · right; left
    refine ⟨h1, ?_⟩
    simp only [revalidateCand]
    rw [if_neg h1]

/-- Case analysis of the state produced by the join phase: unchanged
(duplicate join), a fresh match inserted, or a waiting below-capacity match
from the live table extended by one player. -/
theorem joinPhase_state_cases (st : MMState) (preset : RoomPreset)
    (rt : RoomType) (player : Player) (cand : Option ActiveMatch)
    (newId : Str) (now : Nat) :
    (joinPhase st preset rt player cand newId now).2.activeMatches =
        st.activeMatches ∨
    (joinPhase st preset rt player cand newId now).2.activeMatches =
        assocSet st.activeMatches newId
          ⟨newWaitingMatch rt player newId now, []⟩ ∨
    (∃ c wm, cand = some c ∧ mmGet st c.matchData.id = some wm ∧
      wm.matchData.status = MatchStatus.waiting ∧
      wm.matchData.players.length < preset.maxPlayers ∧
      (joinPhase st preset rt player cand newId now).2.activeMatches =
        assocSet st.activeMatches wm.matchData.id (pushPlayer player wm)) := by
  rcases cand with _ | c
  · right; left
    rw [joinPhase_eq_none rt player newId now
      (show revalidateCand st preset none = none from rfl)]
    rfl
  · rcases revalidateCand_cases st preset c with hre | ⟨h1, hre⟩ |
      ⟨still, hget, hstat, hlen, hre⟩
    · right; left
      rw [joinPhase_eq_none rt player newId now hre]
      rfl
    · right; left
      rw [joinPhase_eq_some rt player newId now hre]
      unfold joinExisting
      rw [if_neg h1]
      rfl
    · rw [joinPhase_eq_some rt player newId now hre]
      unfold joinExisting
      rw [if_pos hlen]
      by_cases h3 : still.matchData.players.any
          (fun p => decide (p.id = player.id)) = true
      · rw [if_pos h3]
        left
        rfl
      · rw [if_neg h3]
        right; right
        exact ⟨c, still, rfl, hget, hstat, hlen, rfl⟩

theorem tableInv_joinPhase {presets : List RoomPreset} {st : MMState}
    {preset : RoomPreset} {rt : RoomType} (player : Player)
    (cand : Option ActiveMatch) (newId : Str) (now : Nat)
    (hok : PresetsOK presets) (hinv : TableInv presets st)
    (hp : findPreset presets rt = some preset)
    (hcand : ∀ c, cand = some c → ∀ am, mmGet st c.matchData.id = some am →
      am.matchData.roomType = rt) :
    TableInv presets (joinPhase st preset rt player cand newId now).2 := by
  rcases joinPhase_state_cases st preset rt player cand newId now with hcase |
    hcase | ⟨c, wm, hc, hget, hstat, hlen, hcase⟩
  · exact tableInv_activeMatches_eq hinv hcase
  · exact tableInv_activeMatches_eq
      (@tableInv_mmSet presets st newId
        ⟨newWaitingMatch rt player newId now, []⟩ hinv rfl
        (capOK_newWaitingMatch hok hp player newId now)
        (roundOK_newWaitingMatch presets rt player newId now)) hcase
  · have hmem : (c.matchData.id, wm) ∈ st.activeMatches := assocGet_mem hget
    have hwmid : wm.matchData.id = c.matchData.id := hinv.1.2 _ _ hmem
    have hrt : wm.matchData.roomType = rt := hcand c hc wm hget
    have hwOK := hinv.2 _ _ hmem
    have hcap : CapOK presets (pushPlayer player wm).matchData := by
      intro q hq
      have hq3 : q = preset := by
        have h5 : findPreset presets rt = some q := by
          rw [← hrt]
          exact hq
        rw [hp] at h5
        injection h5 with h6
        exact h6.symm
      subst hq3
      show (wm.matchData.players ++ [player]).length ≤ q.maxPlayers
      rw [List.length_append, List.length_singleton]
      omega
    have htimers := hwOK.2.2.2 hstat
    have hround : RoundOK presets (pushPlayer player wm).matchData := by
      refine ⟨?_, ?_, ?_⟩
      · rintro ⟨⟨s, hs, -⟩, -⟩
        rw [show (pushPlayer player wm).matchData.roundStartTime =
          wm.matchData.roundStartTime from rfl, htimers.1] at hs
        cases hs
      · intro hfin
        rw [show (pushPlayer player wm).matchData.status =
          wm.matchData.status from rfl, hstat] at hfin
        cases hfin
      · intro _
        exact ⟨htimers.1, htimers.2⟩
    have hid : (pushPlayer player wm).matchData.id = wm.matchData.id := rfl
    exact tableInv_activeMatches_eq
      (tableInv_mmSet (k := wm.matchData.id) hinv hid hcap hround) hcase

/-! ### Game-operation characterizations -/

theorem startRound_ok {presets : List RoomPreset} {m : Match}
    {now rndEnd : Nat} {m2 : Match}
    (h : startRound presets m now rndEnd = .ok m2) :
    ∃ preset, findPreset presets m.roomType = some preset ∧
      m.status = MatchStatus.playing ∧ m.currentRound + 1 ≤ preset.rounds ∧
      m2 = { m with
        players := m.players.map (fun p =>
          { p with pressTime := none, position := none })
        currentRound := m.currentRound + 1
        roundStartTime := some now
        roundEndTime := some rndEnd } := by
  unfold startRound at h
  split at h
  · cases h
  · rename_i preset hpre
    split at h
    · cases h
    · rename_i hstat
      split at h
      · cases h
      · rename_i hrounds
        injection h with h2
        exact ⟨preset, hpre, not_ne_iff.mp hstat,
          Nat.le_of_not_lt hrounds, h2.symm⟩

theorem length_updateFirstPlayer (pid : Str) (f : Player → Player) :
    ∀ l : List Player, (updateFirstPlayer l pid f).length = l.length := by
  intro l
  induction l with
  | nil => rfl
  | cons p rest ih =>
    unfold updateFirstPlayer
    by_cases hp : p.id = pid
    · rw [if_pos hp]
      simp
    · rw [if_neg hp]
      simp [ih]

theorem recordPress_ok {m : Match} {playerId : Str} {now : Nat} {m2 : Match}
    (h : recordPress m playerId now = .ok m2) :
    m2.roomType = m.roomType ∧ m2.id = m.id ∧ m2.status = m.status ∧
    m2.currentRound = m.currentRound ∧
    m2.roundStartTime = m.roundStartTime ∧
    m2.roundEndTime = m.roundEndTime ∧
    m2.players.length = m.players.length := by
  unfold recordPress at h
  split at h
  · split at h
    · cases h
    · split at h
      · injection h with h2
        subst h2
        exact ⟨rfl, rfl, rfl, rfl, rfl, rfl, rfl⟩
      · injection h with h2
        subst h2
        refine ⟨rfl, rfl, rfl, rfl, rfl, rfl, ?_⟩
        exact length_updateFirstPlayer _ _ _
  · cases h

theorem endRound_ok {presets : List RoomPreset} {m : Match} {now : Nat}
    {m2 : Match} {rr : RoundResult}
    (h : endRound presets m now = .ok (m2, rr)) :
    RoundLive m ∧
    m2.roomType = m.roomType ∧ m2.id = m.id ∧
    m2.currentRound = m.currentRound ∧
    m2.players.length = m.players.length ∧
    m2.roundResults = m.roundResults ++ [rr] ∧
    m2.roundStartTime = none ∧ m2.roundEndTime = none ∧
    ((∃ preset, findPreset presets m.roomType = some preset ∧
        preset.rounds ≤ m.currentRound ∧
        m2.status = MatchStatus.finished ∧ m2.finishedAt = some now) ∨
      (m2.status = m.status ∧
        ∀ preset, findPreset presets m.roomType = some preset →
          m.currentRound < preset.rounds)) := by
  unfold endRound at h
  split at h
  · rename_i hlive
    refine ⟨hlive, ?_⟩
    split at h
    all_goals
      dsimp only [] at h
      split at h
      case h_1 preset hpre =>
        split at h
        case isTrue hfin =>
          injection h with h2
          rw [Prod.mk.injEq] at h2
          obtain ⟨hm2, hrr⟩ := h2
          subst hm2
          subst hrr
          refine ⟨rfl, rfl, rfl, by simp, rfl, rfl, rfl, ?_⟩
          exact Or.inl ⟨preset, hpre, hfin, rfl, rfl⟩
        case isFalse hfin =>
          injection h with h2
          rw [Prod.mk.injEq] at h2
          obtain ⟨hm2, hrr⟩ := h2
          subst hm2
          subst hrr
          refine ⟨rfl, rfl, rfl, by simp, rfl, rfl, rfl, ?_⟩
          refine Or.inr ⟨rfl, ?_⟩
          intro q hq
          rw [hpre] at hq
          injection hq with hq2
          subst hq2
          exact Nat.lt_of_not_le hfin
      case h_2 hpre =>
        injection h with h2
        rw [Prod.mk.injEq] at h2
        obtain ⟨hm2, hrr⟩ := h2
        subst hm2
        subst hrr
        refine ⟨rfl, rfl, rfl, by simp, rfl, rfl, rfl, ?_⟩
        refine Or.inr ⟨rfl, ?_⟩
        intro q hq
        rw [hpre] at hq
        cases hq
  · cases h

theorem roundLive_of_eq {m m2 : Match}
    (h1 : m2.roundStartTime = m.roundStartTime)
    (h2 : m2.roundEndTime = m.roundEndTime) :
    RoundLive m2 ↔ RoundLive m := by
  unfold RoundLive
  rw [h1, h2]

theorem matchOK_startRound {presets : List RoomPreset} {m : Match}
    {now rndEnd : Nat} {m2 : Match} (hcap : CapOK presets m)
    (h : startRound presets m now rndEnd = .ok m2) :
    CapOK presets m2 ∧ RoundOK presets m2 := by
  obtain ⟨preset, hpre, hstat, hbound, hm2⟩ := startRound_ok h
  subst hm2
  refine ⟨?_, ?_, ?_, ?_⟩
  · intro q hq
    have := hcap q hq
    simpa using this
  · intro _ q hq
    have hq2 : q = preset := Option.some.inj (hq.symm.trans hpre)
    subst hq2
    exact hbound
  · intro hfin
    rw [show ({ m with
        players := m.players.map (fun p =>
          { p with pressTime := none, position := none })
        currentRound := m.currentRound + 1
        roundStartTime := some now
        roundEndTime := some rndEnd } : Match).status = m.status from rfl,
      hstat] at hfin
    cases hfin
  · intro hw
    rw [show ({ m with
        players := m.players.map (fun p =>
          { p with pressTime := none, position := none })
        currentRound := m.currentRound + 1
        roundStartTime := some now
        roundEndTime := some rndEnd } : Match).status = m.status from rfl,
      hstat] at hw
    cases hw

theorem matchOK_recordPress {presets : List RoomPreset} {m : Match}
    {playerId : Str} {now : Nat} {m2 : Match}
    (hcap : CapOK presets m) (hround : RoundOK presets m)
    (h : recordPress m playerId now = .ok m2) :
    CapOK presets m2 ∧ RoundOK presets m2 := by
  obtain ⟨hrt, hid, hstat, hcur, hst, het, hlen⟩ := recordPress_ok h
  refine ⟨?_, ?_, ?_, ?_⟩
  · intro q hq
    rw [hrt] at hq
    rw [hlen]
    exact hcap q hq
  · intro hlive q hq
    rw [hrt] at hq
    rw [hcur]
    exact hround.1 ((roundLive_of_eq hst het).mp hlive) q hq
  · intro hfin
    rw [hstat] at hfin
    obtain ⟨⟨p, hp, hpr⟩, h1, h2⟩ := hround.2.1 hfin
    refine ⟨⟨p, ?_, ?_⟩, ?_, ?_⟩
    · rw [hrt]; exact hp
    · rw [hcur]; exact hpr
    · rw [hst]; exact h1
    · rw [het]; exact h2
  · intro hw
    rw [hstat] at hw
    obtain ⟨h1, h2⟩ := hround.2.2 hw
    rw [hst, het]
    exact ⟨h1, h2⟩

theorem matchOK_endRound {presets : List RoomPreset} {m : Match} {now : Nat}
    {m2 : Match} {rr : RoundResult}
    (hcap : CapOK presets m) (hround : RoundOK presets m)
    (h : endRound presets m now = .ok (m2, rr)) :
    CapOK presets m2 ∧ RoundOK presets m2 := by
  obtain ⟨hlive, hrt, hid, hcur, hlen, hres, hs1, hs2, hstat⟩ := endRound_ok h
  have hnotlive : ¬ RoundLive m2 := by
    rintro ⟨⟨s, hs, -⟩, -⟩
    rw [hs1] at hs
    cases hs
  refine ⟨?_, ?_, ?_, ?_⟩
  · intro q hq
    rw [hrt] at hq
    rw [hlen]
    exact hcap q hq
  · intro hlive2 q hq
    exact absurd hlive2 hnotlive
  · intro hfin
    rcases hstat with ⟨preset, hpre, hge, -, hfat⟩ | ⟨hsame, hlt⟩
    · have hle : m.currentRound ≤ preset.rounds := hround.1 hlive preset hpre
      refine ⟨⟨preset, ?_, ?_⟩, hs1, hs2⟩
      · rw [hrt]; exact hpre
      · rw [hcur]; omega
    · rw [hsame] at hfin
      obtain ⟨-, hnone, -⟩ := hround.2.1 hfin
      obtain ⟨⟨s, hs, -⟩, -⟩ := hlive
      rw [hnone] at hs
      cases hs
  · intro hw
    exact ⟨hs1, hs2⟩

theorem tableInv_writeBack {presets : List RoomPreset} {st : MMState}
    {matchId : Str} {am : ActiveMatch} {m2 : Match}
    (hinv : TableInv presets st) (hget : mmGet st matchId = some am)
    (hid : m2.id = am.matchData.id)
    (hcap : CapOK presets m2) (hround : RoundOK presets m2) :
    TableInv presets (mmSet st matchId { am with matchData := m2 }) := by
  have hmem : (matchId, am) ∈ st.activeMatches := assocGet_mem hget
  have hkey : am.matchData.id = matchId := hinv.1.2 _ _ hmem
  exact tableInv_mmSet (k := matchId) hinv (by rw [show ({ am with
    matchData := m2 } : ActiveMatch).matchData = m2 from rfl, hid, hkey])
    hcap hround

theorem nodupKeys_assocDelete {β : Type} {l : List (Str × β)} {k : Str}
    (h : (l.map (fun e => e.1)).Nodup) :
    ((assocDelete l k).map (fun e => e.1)).Nodup := by
  unfold assocDelete
  exact h.sublist ((List.filter_sublist l).map (fun e => e.1))

theorem mem_of_mem_assocDelete {β : Type} {l : List (Str × β)} {k : Str}
    {x : Str × β} (h : x ∈ assocDelete l k) : x ∈ l :=
  List.mem_of_mem_filter h

theorem tableInv_removePlayer {presets : List RoomPreset} {st : MMState}
    (hinv : TableInv presets st) (playerId : Str) :
    TableInv presets (removePlayer st playerId) := by
  unfold removePlayer
  split
  · exact hinv
  · rename_i matchId hp2m
    split
    · exact hinv
    · rename_i am hget
      apply @tableInv_activeMatches_eq presets
        (if (am.matchData.players.filter
            (fun p => decide (p.id ≠ playerId))).length = 0 then
          { st with activeMatches := assocDelete st.activeMatches matchId }
        else
          mmSet st matchId
            { am with matchData := { am.matchData with
                players := am.matchData.players.filter
                  (fun p => decide (p.id ≠ playerId)) } }) _
      · split
        · obtain ⟨⟨h1, h2⟩, h3⟩ := hinv
          refine ⟨⟨nodupKeys_assocDelete h1, ?_⟩, ?_⟩
          · intro mid am2 hm
            exact h2 mid am2 (mem_of_mem_assocDelete hm)
          · intro mid am2 hm
            exact h3 mid am2 (mem_of_mem_assocDelete hm)
        · have hmem : (matchId, am) ∈ st.activeMatches := assocGet_mem hget
          have hok := hinv.2 _ _ hmem
          refine tableInv_writeBack hinv hget rfl ?_ ?_
          · intro q hq
            refine le_trans ?_ (hok.1 q hq)
            exact List.length_filter_le _ _
          · obtain ⟨hl, hf, hw⟩ := hok.2
            exact ⟨hl, hf, hw⟩
      · dsimp only []

theorem tableInv_startMatch {presets : List RoomPreset} {st : MMState}
    (hinv : TableInv presets st) (matchId : Str) (now : Nat) :
    TableInv presets (startMatch presets st matchId now).2 := by
  unfold startMatch
  split
  · exact hinv
  · rename_i am hget
    dsimp only []
    split
    · exact hinv
    · rename_i preset hpre
      split
      · exact hinv
      · split
        · exact hinv
        · split
          · exact hinv
          · rename_i hw hfull h2p
            have hmem : (matchId, am) ∈ st.activeMatches := assocGet_mem hget
            have hok := hinv.2 _ _ hmem
            have hwstat : am.matchData.status = MatchStatus.waiting :=
              not_ne_iff.mp hw
            have htimers := hok.2.2.2 hwstat
            refine tableInv_writeBack hinv hget rfl ?_ ?_
            · intro q hq
              exact hok.1 q hq
            · refine ⟨?_, ?_, ?_⟩
              · rintro ⟨⟨s, hs, -⟩, -⟩
                rw [show ({ am.matchData with
                    status := MatchStatus.playing
                    startedAt := some now } : Match).roundStartTime =
                  am.matchData.roundStartTime from rfl, htimers.1] at hs
                cases hs
              · intro hfin
                cases hfin
              · intro hw2
                cases hw2

theorem selectWaiting_mem {st : MMState} {rt : RoomType}
    {preset : RoomPreset} {wm : ActiveMatch}
    (h : wm ∈ selectWaitingMatches st rt preset) :
    (∃ k, (k, wm) ∈ st.activeMatches) ∧ wm.matchData.roomType = rt ∧
      wm.matchData.status = MatchStatus.waiting ∧
      wm.matchData.players.length < preset.maxPlayers := by
  unfold selectWaitingMatches at h
  rw [List.mem_filter] at h
  obtain ⟨hmem, hpred⟩ := h
  simp only [Bool.and_eq_true, decide_eq_true_eq] at hpred
  rw [List.mem_map] at hmem
  obtain ⟨e, he, hse⟩ := hmem
  refine ⟨⟨e.1, ?_⟩, hpred.1.1.1, hpred.1.1.2, hpred.2⟩
  rw [← hse]
  exact he

theorem tableInv_restore {presets : List RoomPreset} {st : MMState}
    {preset : RoomPreset} {rt : RoomType} {dm : Match}
    (hinv : TableInv presets st) (hpre : findPreset presets rt = some preset)
    (hrt : dm.roomType = rt) (hw : dm.status = MatchStatus.waiting)
    (hlen : dm.players.length < preset.maxPlayers) :
    TableInv presets (dm.players.foldl (fun s p => setP2M s p.id dm.id)
      (mmSet st dm.id ⟨restoreShape dm, []⟩)) := by
  apply @tableInv_activeMatches_eq presets
    (mmSet st dm.id ⟨restoreShape dm, []⟩) _
  · refine tableInv_mmSet (k := dm.id) hinv rfl ?_ ?_
    · intro q hq
      have hq2 : findPreset presets rt = some q := by
        rw [← hrt]
        exact hq
      have hq3 : q = preset := Option.some.inj (hq2.symm.trans hpre)
      subst hq3
      show ((restoreShape dm).players).length ≤ q.maxPlayers
      have : (restoreShape dm).players.length = dm.players.length := by
        simp [restoreShape]
      omega
    · refine ⟨?_, ?_, ?_⟩
      · rintro ⟨⟨s, hs, -⟩, -⟩
        cases hs
      · intro hfin
        rw [show (⟨restoreShape dm, []⟩ : ActiveMatch).matchData.status =
          dm.status from rfl, hw] at hfin
        cases hfin
      · intro _
        exact ⟨rfl, rfl⟩
  · exact foldl_setP2M_activeMatches dm.id dm.players _

theorem mmGet_restore (st : MMState) (dm : Match) :
    mmGet (dm.players.foldl (fun s p => setP2M s p.id dm.id)
      (mmSet st dm.id ⟨restoreShape dm, []⟩)) dm.id =
      some ⟨restoreShape dm, []⟩ := by
  unfold mmGet
  rw [show (dm.players.foldl (fun s p => setP2M s p.id dm.id)
      (mmSet st dm.id ⟨restoreShape dm, []⟩)).activeMatches =
    (mmSet st dm.id ⟨restoreShape dm, []⟩).activeMatches from
      foldl_setP2M_activeMatches dm.id dm.players _]
  exact assocGet_assocSet_self st.activeMatches dm.id _

theorem tableInv_findOrCreateMatch {presets : List RoomPreset} {st : MMState}
    {rt : RoomType} {player : Player} {dbMatch : Option Match} {newId : Str}
    {now : Nat} {m : Match} {st2 : MMState}
    (hok : PresetsOK presets) (hinv : TableInv presets st)
    (hdb : ∀ dm, dbMatch = some dm →
      dm.status = MatchStatus.waiting ∧ dm.roomType = rt)
    (hrun : findOrCreateMatch presets st rt player dbMatch newId now =
      .ok (m, st2)) : TableInv presets st2 := by
  unfold findOrCreateMatch at hrun
  split at hrun
  · cases hrun
  · rename_i preset hpre
    split at hrun
    · rename_i wm hsel
      injection hrun with h2
      rw [Prod.mk.injEq] at h2
      rw [← h2.2]
      refine tableInv_joinPhase player (some wm) newId now hok hinv hpre ?_
      intro c hc am hget
      injection hc with hc2
      subst hc2
      obtain ⟨⟨k, hk⟩, hwrt, -, -⟩ :=
        selectWaiting_mem (List.mem_of_mem_head? hsel)
      have hkid : wm.matchData.id = k := hinv.1.2 _ _ hk
      have hmem2 : (wm.matchData.id, am) ∈ st.activeMatches :=
        assocGet_mem hget
      have ham : am = wm := by
        refine nodup_keys_unique hinv.1.1 hmem2 ?_
        rw [hkid]
        exact hk
      rw [ham]
      exact hwrt
    · split at hrun
      · rename_i odm dm
        obtain ⟨hdw, hdrt⟩ := hdb dm rfl
        split at hrun
        · rename_i hdlen
          injection hrun with h2
          rw [Prod.mk.injEq] at h2
          rw [← h2.2]
          have hinv3 := tableInv_restore hinv hpre hdrt hdw hdlen
          refine tableInv_joinPhase player _ newId now hok hinv3 hpre ?_
          intro c hc am hget
          rw [mmGet_restore] at hc
          injection hc with hc2
          subst hc2
          rw [show ((⟨restoreShape dm, []⟩ : ActiveMatch)).matchData.id =
            dm.id from rfl] at hget
          rw [mmGet_restore] at hget
          injection hget with hg2
          subst hg2
          exact hdrt
        · injection hrun with h2
          rw [Prod.mk.injEq] at h2
          rw [← h2.2]
          refine tableInv_joinPhase player none newId now hok hinv hpre ?_
          intro c hc
          cases hc
      · injection hrun with h2
        rw [Prod.mk.injEq] at h2
        rw [← h2.2]
        refine tableInv_joinPhase player none newId now hok hinv hpre ?_
        intro c hc
        cases hc

theorem tableInv_step {presets : List RoomPreset} {st st2 : MMState}
    (hok : PresetsOK presets) (hinv : TableInv presets st)
    (hs : Step presets st st2) : TableInv presets st2 := by
  cases hs
  case findOrCreate rt player dbMatch newId now m hdb hrun =>
    exact tableInv_findOrCreateMatch hok hinv hdb hrun
  case joinResume preset rt player cand newId now hp hcand =>
    exact tableInv_joinPhase player cand newId now hok hinv hp hcand
  case start matchId now =>
    exact tableInv_startMatch hinv matchId now
  case remove playerId =>
    exact tableInv_removePlayer hinv playerId
  case roundStart matchId am now rndEnd m2 hget hrun =>
    have hentry := hinv.2 _ _ (assocGet_mem hget)
    obtain ⟨preset, hpre, hstat, hbound, hm2⟩ := startRound_ok hrun
    have hpres := matchOK_startRound hentry.1 hrun
    refine tableInv_writeBack hinv hget ?_ hpres.1 hpres.2
    rw [hm2]
  case press matchId am pid now m2 hget hrun =>
    have hentry := hinv.2 _ _ (assocGet_mem hget)
    have hpres := matchOK_recordPress hentry.1 hentry.2 hrun
    exact tableInv_writeBack hinv hget (recordPress_ok hrun).2.1 hpres.1 hpres.2
  case roundEnd matchId am now m2 rr hget hrun =>
    have hentry := hinv.2 _ _ (assocGet_mem hget)
    have hpres := matchOK_endRound hentry.1 hentry.2 hrun
    exact tableInv_writeBack hinv hget (endRound_ok hrun).2.2.1 hpres.1 hpres.2

theorem tableInv_empty (presets : List RoomPreset) :
    TableInv presets ⟨[], []⟩ := by
  refine ⟨⟨List.nodup_nil, ?_⟩, ?_⟩
  · intro mid am hm
    cases hm
  · intro mid am hm
    cases hm

theorem reachable_inv {presets : List RoomPreset} {st : MMState}
    (hok : PresetsOK presets) (h : Reachable presets st) :
    TableInv presets st := by
  induction h with
  | init => exact tableInv_empty presets
  | step h hs ih => exact tableInv_step hok ih hs

/-- C2: along every sequence of Matchmaker operations no match's roster
exceeds its preset's `maxPlayers`; `findOrCreateMatch`'s join phase
re-validates the candidate against the live table immediately before the
push — when the live entry is gone, no longer `waiting`, or already at
capacity it falls back to a fresh match holding `[player]` alone, and a push
happens only into a live entry that is still `waiting` and below capacity. -/
theorem c2_capacity (presets : List RoomPreset) (hok : PresetsOK presets) :
    (∀ st, Reachable presets st →
      ∀ mid am, (mid, am) ∈ st.activeMatches →
        ∀ p, findPreset presets am.matchData.roomType = some p →
          am.matchData.players.length ≤ p.maxPlayers)
    ∧ (∀ (st : MMState) (preset : RoomPreset) (rt : RoomType)
        (player : Player) (c : ActiveMatch) (newId : Str) (now : Nat),
        c.matchData.players.length < preset.maxPlayers →
        (∀ still, mmGet st c.matchData.id = some still →
          ¬(still.matchData.status = MatchStatus.waiting ∧
            still.matchData.players.length < preset.maxPlayers)) →
        joinPhase st preset rt player (some c) newId now =
          joinNew st rt player newId now ∧
        (joinNew st rt player newId now).1.players = [player])
    ∧ (∀ (st : MMState) (preset : RoomPreset) (rt : RoomType)
        (player : Player) (c wm : ActiveMatch) (newId : Str) (now : Nat),
        revalidateCand st preset (some c) = some wm →
        c.matchData.players.length < preset.maxPlayers →
        mmGet st c.matchData.id = some wm ∧
        wm.matchData.status = MatchStatus.waiting ∧
        wm.matchData.players.length < preset.maxPlayers) := by
  refine ⟨?_, ?_, ?_⟩
  · intro st hr mid am hm p hp
    exact ((reachable_inv hok hr).2 _ _ hm).1 p hp
  · intro st preset rt player c newId now hlen hstale
    rcases revalidateCand_cases st preset c with hre | ⟨h1, -⟩ |
      ⟨still, hget, hw, hl, -⟩
    · exact ⟨joinPhase_eq_none rt player newId now hre, rfl⟩
    · exact absurd hlen h1
    · exact absurd ⟨hw, hl⟩ (hstale still hget)
  · intro st preset rt player c wm newId now hre hlen
    simp only [revalidateCand] at hre
    rw [if_pos hlen] at hre
    split at hre
    · cases hre
    · rename_i still hget
      split at hre
      · cases hre
      · rename_i hcond
        injection hre with h3
        subst h3
        push_neg at hcond
        exact ⟨hget, hcond.1, hcond.2⟩

/-- Concrete race fallback: joining through a stale one-player snapshot of
the meanwhile-filled match `m1` creates a fresh match instead of pushing. -/
theorem c2_capacity_witness :
    PresetsOK defaultPresets ∧
    joinPhase sampleFullState tonPreset RoomType.ton tonPlayer3
        (some sampleStale) "m2".data 77 =
      joinNew sampleFullState RoomType.ton tonPlayer3 "m2".data 77 := by
  have hok : PresetsOK defaultPresets := by
    unfold PresetsOK
    decide
  refine ⟨hok, ?_⟩
  refine ((c2_capacity defaultPresets hok).2.1 sampleFullState tonPreset
    RoomType.ton tonPlayer3 sampleStale ("m2".data) 77 (by decide) ?_).1
  intro still hstill
  rw [show mmGet sampleFullState sampleStale.matchData.id =
    some ⟨sampleFullMatch, []⟩ from rfl] at hstill
  injection hstill with h2
  subst h2
  decide

/-- C7: `startMatch` moves a match from `waiting` to `playing` and stamps
`startedAt` exactly when the preset exists, the status is `waiting`, the
roster is full (`players.length = maxPlayers`, given the capacity bound) and
holds at least two players; in every other case it returns `none` and leaves
the state unchanged. -/
theorem c7_startMatch (presets : List RoomPreset) (st : MMState)
    (matchId : Str) (now : Nat)
    (hcap : ∀ am preset, mmGet st matchId = some am →
      findPreset presets am.matchData.roomType = some preset →
      am.matchData.players.length ≤ preset.maxPlayers) :
    (∀ m2 st2, startMatch presets st matchId now = (some m2, st2) →
      ∃ am preset, mmGet st matchId = some am ∧
        findPreset presets am.matchData.roomType = some preset ∧
        am.matchData.status = MatchStatus.waiting ∧
        am.matchData.players.length = preset.maxPlayers ∧
        2 ≤ am.matchData.players.length ∧
        m2 = { am.matchData with
          status := MatchStatus.playing
          startedAt := some now } ∧
        st2 = mmSet st matchId { am with matchData := m2 })
    ∧ (∀ am preset, mmGet st matchId = some am →
        findPreset presets am.matchData.roomType = some preset →
        am.matchData.status = MatchStatus.waiting →
        am.matchData.players.length = preset.maxPlayers →
        2 ≤ am.matchData.players.length →
        startMatch presets st matchId now =
          (some { am.matchData with
              status := MatchStatus.playing
              startedAt := some now },
            mmSet st matchId { am with matchData := { am.matchData with
              status := MatchStatus.playing
              startedAt := some now } }))
    ∧ (∀ st2, startMatch presets st matchId now = (none, st2) → st2 = st) := by
  refine ⟨?_, ?_, ?_⟩
  · intro m2 st2 h
    unfold startMatch at h
    split at h
    · injection h with h1 h2
      cases h1
    · rename_i am hget
      dsimp only [] at h
      split at h
      · injection h with h1 h2
        cases h1
      · rename_i preset hpre
        split at h
        · injection h with h1 h2
          cases h1
        · rename_i hw
          split at h
          · injection h with h1 h2
            cases h1
          · rename_i hfull
            split at h
            · injection h with h1 h2
              cases h1
            · rename_i h2p
              injection h with h1 h2
              injection h1 with h1
              refine ⟨am, preset, hget, hpre, not_ne_iff.mp hw,
                Nat.le_antisymm (hcap am preset hget hpre)
                  (Nat.le_of_not_lt hfull),
                Nat.le_of_not_lt h2p, h1.symm, ?_⟩
              rw [← h2, ← h1]
  · intro am preset hget hpre hw hfullEq h2p
    unfold startMatch
    split
    · rename_i hnone
      rw [hnone] at hget
      cases hget
    · rename_i am2 hget2
      rw [hget2] at hget
      injection hget with ham
      subst ham
      dsimp only []
      split
      · rename_i hnone
        rw [hnone] at hpre
        cases hpre
      · rename_i preset2 hpre2
        rw [hpre2] at hpre
        injection hpre with hp2
        subst hp2
        rw [if_neg (not_ne_iff.mpr hw)]
        rw [if_neg (show ¬ am2.matchData.players.length < preset2.maxPlayers
          by omega)]
        rw [if_neg (show ¬ am2.matchData.players.length < 2 by omega)]
  · intro st2 h
    unfold startMatch at h
    split at h
    · injection h with h1 h2
      exact h2.symm
    · rename_i am hget
      dsimp only [] at h
      split at h
      · injection h with h1 h2
        exact h2.symm
      · split at h
        · injection h with h1 h2
          exact h2.symm
        · split at h
          · injection h with h1 h2
            exact h2.symm
          · split at h
            · injection h with h1 h2
              exact h2.symm
            · injection h with h1 h2
              cases h1

/-- `startMatch` starts the full two-player waiting match `m1`. -/
theorem c7_startMatch_witness :
    startMatch defaultPresets sampleFullState "m1".data 55 =
      (some { sampleFullMatch with
          status := MatchStatus.playing
          startedAt := some 55 },
        mmSet sampleFullState "m1".data
          ⟨{ sampleFullMatch with
              status := MatchStatus.playing
              startedAt := some 55 }, []⟩) := by
  refine (c7_startMatch defaultPresets sampleFullState "m1".data 55 ?_).2.1
    ⟨sampleFullMatch, []⟩ tonPreset rfl rfl rfl rfl (by decide)
  intro am preset hget hpre
  rw [show mmGet sampleFullState "m1".data = some ⟨sampleFullMatch, []⟩
    from rfl] at hget
  injection hget with h2
  subst h2
  rw [show findPreset defaultPresets
      (⟨sampleFullMatch, ([] : List Str)⟩ : ActiveMatch).matchData.roomType =
    some tonPreset from rfl] at hpre
  injection hpre with h3
  subst h3
  decide

/-- C9: on a live round, `endRound` appends exactly one `RoundResult` and
clears both round timers; when the match was not already finished it moves
to `finished` with `finishedAt` stamped exactly when `currentRound` has
reached the preset's `rounds`; `startRound` never advances `currentRound`
past `preset.rounds`; and in every reachable Matchmaker state a `finished`
match has `currentRound = preset.rounds`. -/
theorem c9_round_progress :
    (∀ (presets : List RoomPreset) (m : Match) (now : Nat)
        (m2 : Match) (rr : RoundResult),
      m.status ≠ MatchStatus.finished →
      endRound presets m now = .ok (m2, rr) →
        m2.roundResults = m.roundResults ++ [rr] ∧
        m2.roundStartTime = none ∧ m2.roundEndTime = none ∧
        (m2.status = MatchStatus.finished ↔
          ∃ p, findPreset presets m.roomType = some p ∧
            p.rounds ≤ m.currentRound) ∧
        (m2.status = MatchStatus.finished → m2.finishedAt = some now))
    ∧ (∀ (presets : List RoomPreset) (m : Match) (now rndEnd : Nat)
        (m2 : Match),
      startRound presets m now rndEnd = .ok m2 →
        ∃ p, findPreset presets m.roomType = some p ∧
          m2.currentRound = m.currentRound + 1 ∧ m2.currentRound ≤ p.rounds)
    ∧ (∀ (presets : List RoomPreset) (st : MMState),
      PresetsOK presets → Reachable presets st →
        ∀ mid am, (mid, am) ∈ st.activeMatches →
          am.matchData.status = MatchStatus.finished →
          ∃ p, findPreset presets am.matchData.roomType = some p ∧
            am.matchData.currentRound = p.rounds) := by
  refine ⟨?_, ?_, ?_⟩
  · intro presets m now m2 rr hnf h
    obtain ⟨hlive, hrt, hid, hcur, hlen, hres, hs1, hs2, hstat⟩ :=
      endRound_ok h
    refine ⟨hres, hs1, hs2, ⟨?_, ?_⟩, ?_⟩
    · intro hfin
      rcases hstat with ⟨p, hp, hge, -, -⟩ | ⟨hsame, hlt⟩
      · exact ⟨p, hp, hge⟩
      · rw [hsame] at hfin
        exact absurd hfin hnf
    · rintro ⟨p, hp, hge⟩
      rcases hstat with ⟨q, hq, hge2, hfin, -⟩ | ⟨-, hlt⟩
      · exact hfin
      · exact absurd (hlt p hp) (by omega)
    · intro hfin
      rcases hstat with ⟨q, hq, hge2, -, hfat⟩ | ⟨hsame, -⟩
      · exact hfat
      · rw [hsame] at hfin
        exact absurd hfin hnf
  · intro presets m now rndEnd m2 h
    obtain ⟨preset, hpre, -, hbound, hm2⟩ := startRound_ok h
    subst hm2
    exact ⟨preset, hpre, rfl, hbound⟩
  · intro presets st hok hr mid am hm hfin
    obtain ⟨⟨p, hp, heq⟩, -, -⟩ :=
      ((reachable_inv hok hr).2 _ _ hm).2.2.1 hfin
    exact ⟨p, hp, heq⟩

/-- Ending the live third round of `sampleLiveMatch` (TON preset: 3 rounds)
finishes the match and stamps `finishedAt`. -/
theorem c9_round_progress_witness :
    sampleLiveMatch.status ≠ MatchStatus.finished ∧
    ∃ m2 rr, endRound defaultPresets sampleLiveMatch 99999 = .ok (m2, rr) ∧
      m2.status = MatchStatus.finished ∧ m2.finishedAt = some 99999 := by
  refine ⟨by decide, ?_⟩
  obtain ⟨m2, rr, hrun⟩ :
      ∃ m2 rr, endRound defaultPresets sampleLiveMatch 99999 =
        .ok (m2, rr) := ⟨_, _, rfl⟩
  have h := c9_round_progress.1 defaultPresets sampleLiveMatch 99999 m2 rr
    (by decide) hrun
  have hfin : m2.status = MatchStatus.finished :=
    h.2.2.2.1.mpr ⟨tonPreset, rfl, by decide⟩
  exact ⟨m2, rr, hrun, hfin, h.2.2.2.2 hfin⟩

end LastBack
